import Mathlib

/-!
Verification of the netfilm-backend Akinator decision engine
(`backend/engines/engine_akinator.py` and `backend/app_akinator.py`).

The Python code is shallowly embedded: films are records, the per-game
`EngineState` is a structure, Python dicts keyed by film id are association
lists, Python sets of routing keys are `Finset String`, floating point scores
are idealised as `ℚ` (for the scoring state) and `ℝ` (for the entropy-based
question selector, which uses `log2`).
-/

/-- A film row as loaded from the `movies` table, restricted to the fields the
claims under verification touch.  `release_date` and `original_language` are
optional exactly as in the database (`None`/missing in Python). -/
structure Movie where
  id : ℤ
  title : String
  release_date : Option String
  popularity : ℚ
  original_language : Option String
deriving DecidableEq, Repr

/-- Python `s.startswith(pre)`, computed on the character lists (the built-in
`String.startsWith` does not reduce in the kernel). -/
def str_startswith (s pre : String) : Bool := pre.toList.isPrefixOf s.toList

/-- Python `s.startswith((p1, p2, ...))`: true when any prefix matches. -/
def str_startswith_any (s : String) (pres : List String) : Bool :=
  pres.any (fun p => str_startswith s p)

/-- Value of a decimal digit character, `none` for non-digits. -/
def digit_val (c : Char) : Option ℕ :=
  if c.toNat < 48 ∨ 57 < c.toNat then none else some (c.toNat - 48)

/-- Python `int(s)` restricted to non-empty digit strings (release dates are
`YYYY-MM-DD`, so signs and whitespace never occur there); `none` mirrors the
`ValueError` branch. -/
def parse_nat_chars : List Char → Option ℕ
  | [] => none
  | cs => cs.foldl (fun acc c => match acc, digit_val c with
      | some n, some d => some (n * 10 + d)
      | _, _ => none) (some 0)

/-- `safe_year` from engine_akinator.py: first four characters of the release
date parsed as an integer, `None` when absent or unparsable. -/
def safe_year : Option String → Option ℤ
  | none => none
  | some s => if s = "" then none else (parse_nat_chars (s.toList.take 4)).map Int.ofNat

/-- `pred_before_year(year)`: release year strictly before `year`, `Unknown`
when the year is missing. -/
def pred_before_year (year : ℤ) (m : Movie) : Option Bool :=
  match safe_year m.release_date with
  | none => none
  | some y => some (decide (y < year))

/-- `pred_after_year(year)`: release year `≥ year`, `Unknown` when missing. -/
def pred_after_year (year : ℤ) (m : Movie) : Option Bool :=
  match safe_year m.release_date with
  | none => none
  | some y => some (decide (year ≤ y))

/-- `pred_language(lang_code)`: original language equals the code, `Unknown`
when the language is missing (Python falsy check on the field). -/
def pred_language (lang_code : String) (m : Movie) : Option Bool :=
  match m.original_language with
  | none => none
  | some lang => if lang = "" then none else some (decide (lang = lang_code))

section Dict

variable {β : Type}

/-- Python `d.get(k, default)` on a dict modelled as an association list. -/
def dget (l : List (ℤ × β)) (k : ℤ) (default : β) : β :=
  ((l.find? (fun p => p.1 = k)).map Prod.snd).getD default

/-- Python `d[k] = v`: replace the entry if the key is present, else append. -/
def dset (l : List (ℤ × β)) (k : ℤ) (v : β) : List (ℤ × β) :=
  if l.any (fun p => p.1 = k) then
    l.map (fun p => if p.1 = k then (k, v) else p)
  else l ++ [(k, v)]

/-- The key set of a dict. -/
def dkeys (l : List (ℤ × β)) : List ℤ := l.map Prod.fst

end Dict

/-- The `Question` dataclass: routing key, prompt, tri-valued predicate and
the optional logical dependency sets (`None` and the empty set behave
identically in the Python guards, so both are the empty `Finset`). -/
structure Question where
  key : String
  text : String
  predicate : Movie → Option Bool
  requires : Finset String := ∅
  excludes : Finset String := ∅

/-- The mutable `EngineState` dataclass. -/
structure EngineState where
  candidates : List Movie
  asked : Finset String
  scores : List (ℤ × ℚ)
  strikes : List (ℤ × ℕ)
  question_count : ℕ
  guess_cooldown : ℕ
  top_streak_mid : Option ℤ
  top_streak_len : ℕ
  consecutive_guesses : ℕ
  recent_question_types : List String

/-- `init_state(movies)`. -/
def init_state (movies : List Movie) : EngineState :=
  { candidates := movies
    asked := ∅
    scores := movies.map (fun m => (m.id, (0 : ℚ)))
    strikes := []
    question_count := 0
    guess_cooldown := 0
    top_streak_mid := none
    top_streak_len := 0
    consecutive_guesses := 0
    recent_question_types := [] }

/-- The stable ascending comparison used by `sort_candidates`: Python sorts by
the key `(-score, -popularity)`. -/
def cand_le (sc : List (ℤ × ℚ)) (a b : Movie) : Bool :=
  decide (-(dget sc a.id 0) < -(dget sc b.id 0) ∨
    (-(dget sc a.id 0) = -(dget sc b.id 0) ∧ -a.popularity ≤ -b.popularity))

/-- `sort_candidates(state)`: stable sort of the pool by `(-score, -popularity)`. -/
def sort_state (s : EngineState) : EngineState :=
  { s with candidates := s.candidates.mergeSort (cand_le s.scores) }

example : str_startswith "before_1990" "language_" = false := by decide
example : str_startswith "language_pt" "language_" = true := by decide
example : "language_pt" ∉ ({"language_en", "language_fr"} : Finset String) := by decide
example : safe_year (some "1980-01-01") = some 1980 := by decide
example : pred_before_year 1990 ⟨1, "A", some "1980-01-01", 5, some "en"⟩ = some true := by decide

/-! ## Answer applicator (`update_state_with_answer`, lines 2150-2331) -/

/-- The `hard_elimination_prefixes` list. -/
def hard_elimination_prefixes : List String :=
  ["franchise_", "language_", "director_", "joker_title_", "char_", "decade_",
   "year_", "validate_"]

/-- The `hard_elimination_keys` set. -/
def hard_elimination_keys : List String :=
  ["is_animation", "is_live_action", "is_short", "is_feature", "runtime_lt_90",
   "runtime_ge_150", "before_2000", "after_2010", "is_saga", "is_standalone",
   "big_budget", "small_budget", "is_american", "is_french", "is_european",
   "is_asian"]

/-- `is_hard_elimination` as computed at the top of `update_state_with_answer`. -/
def is_hard_elimination (key : String) : Bool :=
  key ∈ hard_elimination_keys || hard_elimination_prefixes.any (fun p => str_startswith key p)

/-- `yes_boost(key)` from `update_state_with_answer`. -/
def yes_boost (key : String) : ℚ :=
  if str_startswith key "validate_" then 8
  else if str_startswith_any key ["director_", "dyn_director_"] then 7
  else if str_startswith_any key ["franchise_", "char_"] then 6
  else if str_startswith_any key ["actor_", "dyn_actor_"] then 5
  else if str_startswith_any key ["language_", "decade_", "year_"] then 5
  else if str_startswith key "genre_" then 3
  else 5

/-- `no_boost(key)` from `update_state_with_answer`. -/
def no_boost (key : String) : ℚ :=
  if str_startswith key "validate_" then 4
  else if str_startswith_any key ["director_", "franchise_", "char_"] then 4
  else if str_startswith_any key ["actor_", "dyn_actor_", "dyn_director_"] then 3
  else 3

/-- The `ans == "y"` pass: films answering `False` are dropped, films answering
`True` gain `yes_boost`, films answering `Unknown` are kept with the missing
data penalty.  Returns the kept pool and the updated score dict (purging
happens afterwards, as in the source). -/
def pass_yes (q : Question) (hard : Bool) :
    List Movie → List (ℤ × ℚ) → List Movie × List (ℤ × ℚ)
  | [], sc => ([], sc)
  | m :: rest, sc =>
    match q.predicate m with
    | some true =>
      let sc1 := dset sc m.id (dget sc m.id 0 + yes_boost q.key)
      let r := pass_yes q hard rest sc1
      (m :: r.1, r.2)
    | none =>
      let pen : ℚ := if hard then -2 else -(1/2)
      let sc1 := dset sc m.id (dget sc m.id 0 + pen)
      let r := pass_yes q hard rest sc1
      (m :: r.1, r.2)
    | some false => pass_yes q hard rest sc

/-- The `ans == "n"` pass, symmetric to `pass_yes`. -/
def pass_no (q : Question) (hard : Bool) :
    List Movie → List (ℤ × ℚ) → List Movie × List (ℤ × ℚ)
  | [], sc => ([], sc)
  | m :: rest, sc =>
    match q.predicate m with
    | some false =>
      let sc1 := dset sc m.id (dget sc m.id 0 + no_boost q.key)
      let r := pass_no q hard rest sc1
      (m :: r.1, r.2)
    | none =>
      let pen : ℚ := if hard then -1 else 3/10
      let sc1 := dset sc m.id (dget sc m.id 0 + pen)
      let r := pass_no q hard rest sc1
      (m :: r.1, r.2)
    | some true => pass_no q hard rest sc

/-- The `ans == "py"` pass: no eliminations; `True` films gain, `False` films
lose and take a strike on hard questions. -/
def pass_py (q : Question) (hard : Bool) :
    List Movie → List (ℤ × ℚ) → List (ℤ × ℕ) → List (ℤ × ℚ) × List (ℤ × ℕ)
  | [], sc, st => (sc, st)
  | m :: rest, sc, st =>
    match q.predicate m with
    | some true =>
      let boost : ℚ := if hard then 2 else 1
      pass_py q hard rest (dset sc m.id (dget sc m.id 0 + boost)) st
    | some false =>
      let pen : ℚ := if hard then -(5/2) else -1
      let sc1 := dset sc m.id (dget sc m.id 0 + pen)
      let st1 := if hard then dset st m.id (dget st m.id 0 + 1) else st
      pass_py q hard rest sc1 st1
    | none => pass_py q hard rest sc st

/-- The `ans == "pn"` pass, symmetric to `pass_py`. -/
def pass_pn (q : Question) (hard : Bool) :
    List Movie → List (ℤ × ℚ) → List (ℤ × ℕ) → List (ℤ × ℚ) × List (ℤ × ℕ)
  | [], sc, st => (sc, st)
  | m :: rest, sc, st =>
    match q.predicate m with
    | some false =>
      let boost : ℚ := if hard then 2 else 1
      pass_pn q hard rest (dset sc m.id (dget sc m.id 0 + boost)) st
    | some true =>
      let pen : ℚ := if hard then -(5/2) else -1
      let sc1 := dset sc m.id (dget sc m.id 0 + pen)
      let st1 := if hard then dset st m.id (dget st m.id 0 + 1) else st
      pass_pn q hard rest sc1 st1
    | none => pass_pn q hard rest sc st

/-- The `ans == "?"` pass: films answering `Unknown` gain `+0.2`. -/
def pass_unk (q : Question) : List Movie → List (ℤ × ℚ) → List (ℤ × ℚ)
  | [], sc => sc
  | m :: rest, sc =>
    match q.predicate m with
    | none => pass_unk q rest (dset sc m.id (dget sc m.id 0 + 1/5))
    | some _ => pass_unk q rest sc

/-- The strike elimination block of `update_state_with_answer` (lines
2310-2324): on non-hard answers, films whose strike count reached
`max_strikes` are removed and their score/strike entries popped. -/
def strike_elimination_step (max_strikes : ℕ) (state1 : EngineState) : EngineState :=
  let to_remove := (state1.candidates.filter
    (fun m => max_strikes ≤ dget state1.strikes m.id 0)).map Movie.id
  if to_remove = [] then state1
  else
    { state1 with
        candidates := state1.candidates.filter (fun m => m.id ∉ to_remove),
        scores := state1.scores.filter (fun p => p.1 ∉ to_remove),
        strikes := state1.strikes.filter (fun p => p.1 ∉ to_remove) }

/-- `update_state_with_answer(state, q, ans, max_strikes)`.

Differences forced by the embedding: films always carry an integer id (the
`movie_id(m) is None` skip is dead), and the final state is returned instead
of mutated in place. -/
def post_yes_state (state : EngineState) (q : Question) : EngineState :=
  let r := pass_yes q (is_hard_elimination q.key) state.candidates state.scores
  let remaining_ids := r.1.map Movie.id
  { state with candidates := r.1,
               scores := r.2.filter (fun p => p.1 ∈ remaining_ids),
               strikes := state.strikes.filter (fun p => p.1 ∈ remaining_ids) }

def post_no_state (state : EngineState) (q : Question) : EngineState :=
  let r := pass_no q (is_hard_elimination q.key) state.candidates state.scores
  let remaining_ids := r.1.map Movie.id
  { state with candidates := r.1,
               scores := r.2.filter (fun p => p.1 ∈ remaining_ids),
               strikes := state.strikes.filter (fun p => p.1 ∈ remaining_ids) }

def post_py_state (state : EngineState) (q : Question) : EngineState :=
  let r := pass_py q (is_hard_elimination q.key) state.candidates state.scores state.strikes
  { state with scores := r.1, strikes := r.2 }

def post_pn_state (state : EngineState) (q : Question) : EngineState :=
  let r := pass_pn q (is_hard_elimination q.key) state.candidates state.scores state.strikes
  { state with scores := r.1, strikes := r.2 }

def post_unk_state (state : EngineState) (q : Question) : EngineState :=
  { state with scores := pass_unk q state.candidates state.scores }

def update_state_with_answer (state : EngineState) (q : Question) (ans : String)
    (max_strikes : ℕ) : EngineState :=
  let hard := is_hard_elimination q.key
  let state1 :=
    if ans = "y" then post_yes_state state q
    else if ans = "n" then post_no_state state q
    else if ans = "py" then post_py_state state q
    else if ans = "pn" then post_pn_state state q
    else if ans = "?" then post_unk_state state q
    else state
  let state2 := if hard then state1 else strike_elimination_step max_strikes state1
  sort_state state2

/-! ## Convergence rule (`should_enter_guess_mode`, lines 2364-2402) -/

/-- `score_of(state, m)` (films always carry an id here, so the `-1e9` branch
for id-less films is dead). -/
def score_of (s : EngineState) (m : Movie) : ℚ := dget s.scores m.id 0

/-- Score of the candidate at position `i`; `0` when the position is out of
range (the source only reads positions its guards prove present, except for
the case-4 read of `candidates[0]`, which raises on an empty pool — theorems
about this function therefore assume a non-empty pool). -/
def nth_score (s : EngineState) (i : ℕ) : ℚ :=
  match s.candidates.get? i with
  | some m => score_of s m
  | none => 0

/-- `should_enter_guess_mode(state)`. -/
def should_enter_guess_mode (s : EngineState) : Bool :=
  if s.candidates.length = 1 then true
  else if 2 ≤ s.candidates.length ∧ 5 ≤ s.question_count ∧
      ((0 < nth_score s 1 ∧ 2 ≤ nth_score s 0 / nth_score s 1) ∨
       (nth_score s 1 ≤ 0 ∧ 10 ≤ nth_score s 0)) then true
  else if 10 ≤ s.top_streak_len then true
  else if s.candidates.length ≤ 5 ∧ 7 ≤ s.question_count ∧ 15 ≤ nth_score s 0 then true
  else false

/-- The convergence rule as the specification states it (claim C1): guess
exactly when one candidate remains, or after 5 questions the leader doubles a
positive runner-up score or reaches 10 against a non-positive one, or the same
film has led for 10 questions, or a pool of at most 5 has a leader at 15 after
7 questions. -/
def guess_spec (s : EngineState) : Prop :=
  s.candidates.length = 1 ∨
  (5 ≤ s.question_count ∧ 2 ≤ s.candidates.length ∧
    ((0 < nth_score s 1 ∧ 2 * nth_score s 1 ≤ nth_score s 0) ∨
     (nth_score s 1 ≤ 0 ∧ 10 ≤ nth_score s 0))) ∨
  10 ≤ s.top_streak_len ∨
  (s.candidates.length ≤ 5 ∧ 7 ≤ s.question_count ∧ 15 ≤ nth_score s 0)

instance (s : EngineState) : Decidable (guess_spec s) := by
  unfold guess_spec; infer_instance

theorem guess_rule_iff_spec (s : EngineState) (h : s.candidates ≠ []) :
    should_enter_guess_mode s = true ↔ guess_spec s := by
  have hdiv : ∀ a b : ℚ, 0 < b → (2 ≤ a / b ↔ 2 * b ≤ a) := by
    intro a b hb
    rw [le_div_iff₀ hb, mul_comm]
  constructor
  · intro hb
    unfold should_enter_guess_mode at hb
    split_ifs at hb with h1 h2 h3 h4
    · exact Or.inl h1
    · obtain ⟨hl, hq, hc⟩ := h2
      refine Or.inr (Or.inl ⟨hq, hl, ?_⟩)
      rcases hc with hc | hc
      · exact Or.inl ⟨hc.1, (hdiv _ _ hc.1).mp hc.2⟩
      · exact Or.inr hc
    · exact Or.inr (Or.inr (Or.inl h3))
    · exact Or.inr (Or.inr (Or.inr h4))
  · intro hs
    unfold should_enter_guess_mode
    split_ifs with h1 h2 h3 h4 <;> try rfl
    exfalso
    · rcases hs with hs | ⟨hq, hl, hc⟩ | hs | hs
      · exact h1 hs
      · refine h2 ⟨hl, hq, ?_⟩
        rcases hc with hc | hc
        · exact Or.inl ⟨hc.1, (hdiv _ _ hc.1).mpr hc.2⟩
        · exact Or.inr hc
      · exact h3 hs
      · exact h4 hs

/-- Claim C1: on a non-empty pool (the only pools the engine consults the rule
on; an empty pool would crash the case-4 read of `candidates[0]`),
`should_enter_guess_mode` returns `True` exactly when one of the four spec
conditions holds, and no other condition triggers a guess. -/
theorem claim_C1_guess_rule (s : EngineState) (h : s.candidates ≠ []) :
    should_enter_guess_mode s = true ↔ guess_spec s :=
  guess_rule_iff_spec s h

/-- Witness for C1: a single-candidate state triggers the rule and satisfies
the spec disjunction. -/
theorem claim_C1_guess_rule_witness :
    should_enter_guess_mode
        { candidates := [⟨7, "X", some "2001-05-04", 3, some "en"⟩],
          asked := ∅, scores := [(7, 4)], strikes := [],
          question_count := 3, guess_cooldown := 0, top_streak_mid := some 7,
          top_streak_len := 2, consecutive_guesses := 0,
          recent_question_types := [] } = true :=
  (claim_C1_guess_rule _ (by decide)).mpr (by decide)

/-! ## Dictionary lemmas -/

section DictLemmas

variable {β : Type}

theorem dget_nil (k : ℤ) (d : β) : dget ([] : List (ℤ × β)) k d = d := rfl

theorem find?_dset_self (l : List (ℤ × β)) (k : ℤ) (v : β) :
    (dset l k v).find? (fun p => decide (p.1 = k)) = some (k, v) := by
  unfold dset
  split_ifs with h
  · induction l with
    | nil => simp at h
    | cons p t ih =>
      simp only [List.any_cons, Bool.or_eq_true] at h
      by_cases hp : p.1 = k
      · simp only [List.map_cons, if_pos hp]
        exact List.find?_cons_of_pos _ (by simp)
      · have ht : t.any (fun p => decide (p.1 = k)) = true := by
          rcases h with h | h
          · exact absurd (of_decide_eq_true h) hp
          · exact h
        simp only [List.map_cons, if_neg hp]
        rw [List.find?_cons_of_neg _ (by simpa using hp)]
        exact ih ht
  · induction l with
    | nil => exact List.find?_cons_of_pos _ (by simp)
    | cons p t ih =>
      simp only [List.any_cons, Bool.or_eq_true, not_or] at h
      obtain ⟨hp, ht⟩ := h
      rw [List.cons_append, List.find?_cons_of_neg _ (by simpa using hp)]
      exact ih ht

end DictLemmas

section DictLemmasTwo

variable {β : Type}

theorem find?_dset_ne (l : List (ℤ × β)) (k j : ℤ) (v : β) (hjk : j ≠ k) :
    (dset l k v).find? (fun p => decide (p.1 = j)) = l.find? (fun p => decide (p.1 = j)) := by
  unfold dset
  split_ifs with h
  · clear h
    induction l with
    | nil => rfl
    | cons p t ih =>
      simp only [List.map_cons]
      by_cases hp : p.1 = k
      · rw [if_pos hp, List.find?_cons_of_neg _ (by simp [Ne.symm hjk]),
          List.find?_cons_of_neg _ (by simp [hp, Ne.symm hjk])]
        exact ih
      · rw [if_neg hp]
        by_cases hj : p.1 = j
        · rw [List.find?_cons_of_pos _ (by simp [hj]), List.find?_cons_of_pos _ (by simp [hj])]
        · rw [List.find?_cons_of_neg _ (by simp [hj]), List.find?_cons_of_neg _ (by simp [hj])]
          exact ih
  · rw [List.find?_append]
    have : List.find? (fun p => decide (p.1 = j)) [(k, v)] = none := by
      simp [Ne.symm hjk]
    rw [this, Option.or_none]

theorem dget_dset_self (l : List (ℤ × β)) (k : ℤ) (v d : β) :
    dget (dset l k v) k d = v := by
  unfold dget
  rw [show (fun p : ℤ × β => decide (p.1 = k)) = (fun p : ℤ × β => decide (p.1 = k)) from rfl]
  rw [find?_dset_self]
  rfl

theorem dget_dset_ne (l : List (ℤ × β)) (k j : ℤ) (v : β) (d : β) (hjk : j ≠ k) :
    dget (dset l k v) j d = dget l j d := by
  unfold dget
  rw [find?_dset_ne l k j v hjk]

theorem dkeys_dset_subset (l : List (ℤ × β)) (k : ℤ) (v : β) :
    ∀ j ∈ dkeys (dset l k v), j = k ∨ j ∈ dkeys l := by
  intro j hj
  unfold dset at hj
  split_ifs at hj with h
  · unfold dkeys at hj ⊢
    simp only [List.map_map, List.mem_map, Function.comp] at hj
    obtain ⟨p, hp, he⟩ := hj
    by_cases hpk : p.1 = k
    · rw [if_pos hpk] at he
      exact Or.inl he.symm
    · rw [if_neg hpk] at he
      exact Or.inr (List.mem_map.mpr ⟨p, hp, he⟩)
  · unfold dkeys at hj ⊢
    rw [List.map_append] at hj
    rcases List.mem_append.mp hj with hj | hj
    · exact Or.inr hj
    · simp at hj
      exact Or.inl hj

theorem dget_filter_of_pos (l : List (ℤ × β)) (c : ℤ → Bool) (j : ℤ) (d : β)
    (h : c j = true) : dget (l.filter (fun p => c p.1)) j d = dget l j d := by
  unfold dget
  congr 1
  induction l with
  | nil => rfl
  | cons p t ih =>
    by_cases hp : c p.1
    · rw [List.filter_cons_of_pos (by simpa using hp)]
      by_cases hj : p.1 = j
      · rw [List.find?_cons_of_pos _ (by simp [hj]), List.find?_cons_of_pos _ (by simp [hj])]
      · rw [List.find?_cons_of_neg _ (by simp [hj]), List.find?_cons_of_neg _ (by simp [hj])]
        exact ih
    · rw [List.filter_cons_of_neg (by simpa using hp)]
      have hj : p.1 ≠ j := by
        intro e
        rw [e, h] at hp
        exact hp rfl
      rw [List.find?_cons_of_neg _ (by simp [hj])]
      exact ih

theorem mem_dkeys_filter (l : List (ℤ × β)) (c : ℤ → Bool) (j : ℤ)
    (h : j ∈ dkeys (l.filter (fun p => c p.1))) : j ∈ dkeys l ∧ c j = true := by
  unfold dkeys at h ⊢
  simp only [List.mem_map] at h
  obtain ⟨p, hp, he⟩ := h
  rw [List.mem_filter] at hp
  subst he
  exact ⟨List.mem_map.mpr ⟨p, hp.1, rfl⟩, by simpa using hp.2⟩

theorem mem_dkeys_iff (l : List (ℤ × β)) (j : ℤ) :
    j ∈ dkeys l ↔ ∃ p ∈ l, p.1 = j := by
  unfold dkeys
  simp [List.mem_map, eq_comm]

end DictLemmasTwo

/-! ## Characterisation of the answer passes -/

/-- Net score change of a film under a definite Yes answer. -/
def yes_contrib (q : Question) (hard : Bool) (m : Movie) : ℚ :=
  match q.predicate m with
  | some true => yes_boost q.key
  | none => if hard then -2 else -(1/2)
  | some false => 0

/-- Net score change of a film under a definite No answer. -/
def no_contrib (q : Question) (hard : Bool) (m : Movie) : ℚ :=
  match q.predicate m with
  | some false => no_boost q.key
  | none => if hard then -1 else 3/10
  | some true => 0

/-- Net score change of a film under an Unknown answer. -/
def unk_contrib (q : Question) (m : Movie) : ℚ :=
  match q.predicate m with
  | none => 1/5
  | some _ => 0

theorem mem_pass_yes (q : Question) (hard : Bool) (l : List Movie)
    (sc : List (ℤ × ℚ)) (x : Movie) :
    x ∈ (pass_yes q hard l sc).1 ↔ x ∈ l ∧ q.predicate x ≠ some false := by
  induction l generalizing sc with
  | nil => simp [pass_yes]
  | cons m rest ih =>
    cases hpm : q.predicate m with
    | none =>
      simp only [pass_yes, hpm, List.mem_cons, ih]
      constructor
      · rintro (rfl | ⟨hx, hp⟩)
        · exact ⟨Or.inl rfl, by simp [hpm]⟩
        · exact ⟨Or.inr hx, hp⟩
      · rintro ⟨rfl | hx, hp⟩
        · exact Or.inl rfl
        · exact Or.inr ⟨hx, hp⟩
    | some b =>
      cases b
      · simp only [pass_yes, hpm, List.mem_cons, ih]
        constructor
        · rintro ⟨hx, hp⟩
          exact ⟨Or.inr hx, hp⟩
        · rintro ⟨rfl | hx, hp⟩
          · exact absurd hpm hp
          · exact ⟨hx, hp⟩
      · simp only [pass_yes, hpm, List.mem_cons, ih]
        constructor
        · rintro (rfl | ⟨hx, hp⟩)
          · exact ⟨Or.inl rfl, by simp [hpm]⟩
          · exact ⟨Or.inr hx, hp⟩
        · rintro ⟨rfl | hx, hp⟩
          · exact Or.inl rfl
          · exact Or.inr ⟨hx, hp⟩

theorem pass_yes_scores_not_mem (q : Question) (hard : Bool) (l : List Movie)
    (sc : List (ℤ × ℚ)) (j : ℤ) (hj : j ∉ l.map Movie.id) :
    dget (pass_yes q hard l sc).2 j 0 = dget sc j 0 := by
  induction l generalizing sc with
  | nil => rfl
  | cons m rest ih =>
    simp only [List.map_cons, List.mem_cons, not_or] at hj
    obtain ⟨hjm, hjr⟩ := hj
    cases hpm : q.predicate m with
    | none =>
      simp only [pass_yes, hpm]
      rw [ih _ hjr, dget_dset_ne _ _ _ _ _ hjm]
    | some b =>
      cases b
      · simp only [pass_yes, hpm]
        exact ih _ hjr
      · simp only [pass_yes, hpm]
        rw [ih _ hjr, dget_dset_ne _ _ _ _ _ hjm]

theorem pass_yes_scores_mem (q : Question) (hard : Bool) (l : List Movie)
    (sc : List (ℤ × ℚ)) (m : Movie) (hnd : (l.map Movie.id).Nodup) (hm : m ∈ l) :
    dget (pass_yes q hard l sc).2 m.id 0 = dget sc m.id 0 + yes_contrib q hard m := by
  induction l generalizing sc with
  | nil => cases hm
  | cons m0 rest ih =>
    simp only [List.map_cons, List.nodup_cons] at hnd
    obtain ⟨hnm, hnr⟩ := hnd
    rcases List.mem_cons.mp hm with rfl | hm'
    · have hrest : m.id ∉ rest.map Movie.id := hnm
      cases hpm : q.predicate m with
      | none =>
        simp only [pass_yes, hpm]
        rw [pass_yes_scores_not_mem _ _ _ _ _ hrest, dget_dset_self]
        simp [yes_contrib, hpm]
      | some b =>
        cases b
        · simp only [pass_yes, hpm]
          rw [pass_yes_scores_not_mem _ _ _ _ _ hrest]
          simp [yes_contrib, hpm]
        · simp only [pass_yes, hpm]
          rw [pass_yes_scores_not_mem _ _ _ _ _ hrest, dget_dset_self]
          simp [yes_contrib, hpm]
    · have hne : m.id ≠ m0.id := by
        intro e
        exact hnm (e ▸ List.mem_map.mpr ⟨m, hm', rfl⟩)
      cases hpm : q.predicate m0 with
      | none =>
        simp only [pass_yes, hpm]
        rw [ih _ hnr hm', dget_dset_ne _ _ _ _ _ hne]
      | some b =>
        cases b
        · simp only [pass_yes, hpm]
          exact ih _ hnr hm'
        · simp only [pass_yes, hpm]
          rw [ih _ hnr hm', dget_dset_ne _ _ _ _ _ hne]

theorem mem_pass_no (q : Question) (hard : Bool) (l : List Movie)
    (sc : List (ℤ × ℚ)) (x : Movie) :
    x ∈ (pass_no q hard l sc).1 ↔ x ∈ l ∧ q.predicate x ≠ some true := by
  induction l generalizing sc with
  | nil => simp [pass_no]
  | cons m rest ih =>
    cases hpm : q.predicate m with
    | none =>
      simp only [pass_no, hpm, List.mem_cons, ih]
      constructor
      · rintro (rfl | ⟨hx, hp⟩)
        · exact ⟨Or.inl rfl, by simp [hpm]⟩
        · exact ⟨Or.inr hx, hp⟩
      · rintro ⟨rfl | hx, hp⟩
        · exact Or.inl rfl
        · exact Or.inr ⟨hx, hp⟩
    | some b =>
      cases b
      · simp only [pass_no, hpm, List.mem_cons, ih]
        constructor
        · rintro (rfl | ⟨hx, hp⟩)
          · exact ⟨Or.inl rfl, by simp [hpm]⟩
          · exact ⟨Or.inr hx, hp⟩
        · rintro ⟨rfl | hx, hp⟩
          · exact Or.inl rfl
          · exact Or.inr ⟨hx, hp⟩
      · simp only [pass_no, hpm, List.mem_cons, ih]
        constructor
        · rintro ⟨hx, hp⟩
          exact ⟨Or.inr hx, hp⟩
        · rintro ⟨rfl | hx, hp⟩
          · exact absurd hpm hp
          · exact ⟨hx, hp⟩

theorem pass_no_scores_not_mem (q : Question) (hard : Bool) (l : List Movie)
    (sc : List (ℤ × ℚ)) (j : ℤ) (hj : j ∉ l.map Movie.id) :
    dget (pass_no q hard l sc).2 j 0 = dget sc j 0 := by
  induction l generalizing sc with
  | nil => rfl
  | cons m rest ih =>
    simp only [List.map_cons, List.mem_cons, not_or] at hj
    obtain ⟨hjm, hjr⟩ := hj
    cases hpm : q.predicate m with
    | none =>
      simp only [pass_no, hpm]
      rw [ih _ hjr, dget_dset_ne _ _ _ _ _ hjm]
    | some b =>
      cases b
      · simp only [pass_no, hpm]
        rw [ih _ hjr, dget_dset_ne _ _ _ _ _ hjm]
      · simp only [pass_no, hpm]
        exact ih _ hjr

theorem pass_no_scores_mem (q : Question) (hard : Bool) (l : List Movie)
    (sc : List (ℤ × ℚ)) (m : Movie) (hnd : (l.map Movie.id).Nodup) (hm : m ∈ l) :
    dget (pass_no q hard l sc).2 m.id 0 = dget sc m.id 0 + no_contrib q hard m := by
  induction l generalizing sc with
  | nil => cases hm
  | cons m0 rest ih =>
    simp only [List.map_cons, List.nodup_cons] at hnd
    obtain ⟨hnm, hnr⟩ := hnd
    rcases List.mem_cons.mp hm with rfl | hm'
    · have hrest : m.id ∉ rest.map Movie.id := hnm
      cases hpm : q.predicate m with
      | none =>
        simp only [pass_no, hpm]
        rw [pass_no_scores_not_mem _ _ _ _ _ hrest, dget_dset_self]
        simp [no_contrib, hpm]
      | some b =>
        cases b
        · simp only [pass_no, hpm]
          rw [pass_no_scores_not_mem _ _ _ _ _ hrest, dget_dset_self]
          simp [no_contrib, hpm]
        · simp only [pass_no, hpm]
          rw [pass_no_scores_not_mem _ _ _ _ _ hrest]
          simp [no_contrib, hpm]
    · have hne : m.id ≠ m0.id := by
        intro e
        exact hnm (e ▸ List.mem_map.mpr ⟨m, hm', rfl⟩)
      cases hpm : q.predicate m0 with
      | none =>
        simp only [pass_no, hpm]
        rw [ih _ hnr hm', dget_dset_ne _ _ _ _ _ hne]
      | some b =>
        cases b
        · simp only [pass_no, hpm]
          rw [ih _ hnr hm', dget_dset_ne _ _ _ _ _ hne]
        · simp only [pass_no, hpm]
          exact ih _ hnr hm'

theorem pass_unk_scores_not_mem (q : Question) (l : List Movie)
    (sc : List (ℤ × ℚ)) (j : ℤ) (hj : j ∉ l.map Movie.id) :
    dget (pass_unk q l sc) j 0 = dget sc j 0 := by
  induction l generalizing sc with
  | nil => rfl
  | cons m rest ih =>
    simp only [List.map_cons, List.mem_cons, not_or] at hj
    obtain ⟨hjm, hjr⟩ := hj
    cases hpm : q.predicate m with
    | none =>
      simp only [pass_unk, hpm]
      rw [ih _ hjr, dget_dset_ne _ _ _ _ _ hjm]
    | some b =>
      simp only [pass_unk, hpm]
      exact ih _ hjr

theorem pass_unk_scores_mem (q : Question) (l : List Movie)
    (sc : List (ℤ × ℚ)) (m : Movie) (hnd : (l.map Movie.id).Nodup) (hm : m ∈ l) :
    dget (pass_unk q l sc) m.id 0 = dget sc m.id 0 + unk_contrib q m := by
  induction l generalizing sc with
  | nil => cases hm
  | cons m0 rest ih =>
    simp only [List.map_cons, List.nodup_cons] at hnd
    obtain ⟨hnm, hnr⟩ := hnd
    rcases List.mem_cons.mp hm with rfl | hm'
    · have hrest : m.id ∉ rest.map Movie.id := hnm
      cases hpm : q.predicate m with
      | none =>
        simp only [pass_unk, hpm]
        rw [pass_unk_scores_not_mem _ _ _ _ hrest, dget_dset_self]
        simp [unk_contrib, hpm]
      | some b =>
        simp only [pass_unk, hpm]
        rw [pass_unk_scores_not_mem _ _ _ _ hrest]
        simp [unk_contrib, hpm]
    · have hne : m.id ≠ m0.id := by
        intro e
        exact hnm (e ▸ List.mem_map.mpr ⟨m, hm', rfl⟩)
      cases hpm : q.predicate m0 with
      | none =>
        simp only [pass_unk, hpm]
        rw [ih _ hnr hm', dget_dset_ne _ _ _ _ _ hne]
      | some b =>
        simp only [pass_unk, hpm]
        exact ih _ hnr hm'

theorem dkeys_pass_yes_subset (q : Question) (hard : Bool) (l : List Movie)
    (sc : List (ℤ × ℚ)) :
    ∀ j ∈ dkeys (pass_yes q hard l sc).2, j ∈ dkeys sc ∨ j ∈ l.map Movie.id := by
  induction l generalizing sc with
  | nil => intro j hj; exact Or.inl hj
  | cons m rest ih =>
    intro j hj
    have step : ∀ sc' : List (ℤ × ℚ),
        (∀ i ∈ dkeys sc', i ∈ dkeys sc ∨ i = m.id) →
        j ∈ dkeys (pass_yes q hard rest sc').2 →
        j ∈ dkeys sc ∨ j ∈ (m :: rest).map Movie.id := by
      intro sc' hsub hj'
      rcases ih sc' j hj' with h | h
      · rcases hsub j h with h' | h'
        · exact Or.inl h'
        · exact Or.inr (by simp [h'])
      · exact Or.inr (by simp [h])
    cases hpm : q.predicate m with
    | none =>
      simp only [pass_yes, hpm] at hj
      refine step _ (fun i hi => ?_) hj
      rcases dkeys_dset_subset _ _ _ i hi with h | h
      · exact Or.inr h
      · exact Or.inl h
    | some b =>
      cases b
      · simp only [pass_yes, hpm] at hj
        exact step _ (fun i hi => Or.inl hi) hj
      · simp only [pass_yes, hpm] at hj
        refine step _ (fun i hi => ?_) hj
        rcases dkeys_dset_subset _ _ _ i hi with h | h
        · exact Or.inr h
        · exact Or.inl h

theorem dkeys_pass_no_subset (q : Question) (hard : Bool) (l : List Movie)
    (sc : List (ℤ × ℚ)) :
    ∀ j ∈ dkeys (pass_no q hard l sc).2, j ∈ dkeys sc ∨ j ∈ l.map Movie.id := by
  induction l generalizing sc with
  | nil => intro j hj; exact Or.inl hj
  | cons m rest ih =>
    intro j hj
    have step : ∀ sc' : List (ℤ × ℚ),
        (∀ i ∈ dkeys sc', i ∈ dkeys sc ∨ i = m.id) →
        j ∈ dkeys (pass_no q hard rest sc').2 →
        j ∈ dkeys sc ∨ j ∈ (m :: rest).map Movie.id := by
      intro sc' hsub hj'
      rcases ih sc' j hj' with h | h
      · rcases hsub j h with h' | h'
        · exact Or.inl h'
        · exact Or.inr (by simp [h'])
      · exact Or.inr (by simp [h])
    cases hpm : q.predicate m with
    | none =>
      simp only [pass_no, hpm] at hj
      refine step _ (fun i hi => ?_) hj
      rcases dkeys_dset_subset _ _ _ i hi with h | h
      · exact Or.inr h
      · exact Or.inl h
    | some b =>
      cases b
      · simp only [pass_no, hpm] at hj
        refine step _ (fun i hi => ?_) hj
        rcases dkeys_dset_subset _ _ _ i hi with h | h
        · exact Or.inr h
        · exact Or.inl h
      · simp only [pass_no, hpm] at hj
        exact step _ (fun i hi => Or.inl hi) hj

theorem dkeys_pass_py_subset (q : Question) (hard : Bool) (l : List Movie)
    (sc : List (ℤ × ℚ)) (st : List (ℤ × ℕ)) :
    (∀ j ∈ dkeys (pass_py q hard l sc st).1, j ∈ dkeys sc ∨ j ∈ l.map Movie.id) ∧
    (∀ j ∈ dkeys (pass_py q hard l sc st).2, j ∈ dkeys st ∨ j ∈ l.map Movie.id) := by
  induction l generalizing sc st with
  | nil => exact ⟨fun j hj => Or.inl hj, fun j hj => Or.inl hj⟩
  | cons m rest ih =>
    have step : ∀ (sc' : List (ℤ × ℚ)) (st' : List (ℤ × ℕ)),
        (∀ i ∈ dkeys sc', i ∈ dkeys sc ∨ i = m.id) →
        (∀ i ∈ dkeys st', i ∈ dkeys st ∨ i = m.id) →
        (∀ j ∈ dkeys (pass_py q hard rest sc' st').1,
            j ∈ dkeys sc ∨ j ∈ (m :: rest).map Movie.id) ∧
        (∀ j ∈ dkeys (pass_py q hard rest sc' st').2,
            j ∈ dkeys st ∨ j ∈ (m :: rest).map Movie.id) := by
      intro sc' st' hsc hst
      constructor
      · intro j hj
        rcases (ih sc' st').1 j hj with h | h
        · rcases hsc j h with h' | h'
          · exact Or.inl h'
          · exact Or.inr (by simp [h'])
        · exact Or.inr (by simp [h])
      · intro j hj
        rcases (ih sc' st').2 j hj with h | h
        · rcases hst j h with h' | h'
          · exact Or.inl h'
          · exact Or.inr (by simp [h'])
        · exact Or.inr (by simp [h])
    have hstk : ∀ i ∈ dkeys (if hard then dset st m.id (dget st m.id 0 + 1) else st),
        i ∈ dkeys st ∨ i = m.id := by
      intro i hi
      by_cases hh : hard
      · rw [if_pos hh] at hi
        rcases dkeys_dset_subset _ _ _ i hi with h | h
        · exact Or.inr h
        · exact Or.inl h
      · rw [if_neg hh] at hi
        exact Or.inl hi
    cases hpm : q.predicate m with
    | none =>
      simp only [pass_py, hpm]
      exact step _ _ (fun i hi => Or.inl hi) (fun i hi => Or.inl hi)
    | some b =>
      cases b
      · simp only [pass_py, hpm]
        refine step _ _ (fun i hi => ?_) hstk
        rcases dkeys_dset_subset _ _ _ i hi with h | h
        · exact Or.inr h
        · exact Or.inl h
      · simp only [pass_py, hpm]
        refine step _ _ (fun i hi => ?_) (fun i hi => Or.inl hi)
        rcases dkeys_dset_subset _ _ _ i hi with h | h
        · exact Or.inr h
        · exact Or.inl h

theorem dkeys_pass_pn_subset (q : Question) (hard : Bool) (l : List Movie)
    (sc : List (ℤ × ℚ)) (st : List (ℤ × ℕ)) :
    (∀ j ∈ dkeys (pass_pn q hard l sc st).1, j ∈ dkeys sc ∨ j ∈ l.map Movie.id) ∧
    (∀ j ∈ dkeys (pass_pn q hard l sc st).2, j ∈ dkeys st ∨ j ∈ l.map Movie.id) := by
  induction l generalizing sc st with
  | nil => exact ⟨fun j hj => Or.inl hj, fun j hj => Or.inl hj⟩
  | cons m rest ih =>
    have step : ∀ (sc' : List (ℤ × ℚ)) (st' : List (ℤ × ℕ)),
        (∀ i ∈ dkeys sc', i ∈ dkeys sc ∨ i = m.id) →
        (∀ i ∈ dkeys st', i ∈ dkeys st ∨ i = m.id) →
        (∀ j ∈ dkeys (pass_pn q hard rest sc' st').1,
            j ∈ dkeys sc ∨ j ∈ (m :: rest).map Movie.id) ∧
        (∀ j ∈ dkeys (pass_pn q hard rest sc' st').2,
            j ∈ dkeys st ∨ j ∈ (m :: rest).map Movie.id) := by
      intro sc' st' hsc hst
      constructor
      · intro j hj
        rcases (ih sc' st').1 j hj with h | h
        · rcases hsc j h with h' | h'
          · exact Or.inl h'
          · exact Or.inr (by simp [h'])
        · exact Or.inr (by simp [h])
      · intro j hj
        rcases (ih sc' st').2 j hj with h | h
        · rcases hst j h with h' | h'
          · exact Or.inl h'
          · exact Or.inr (by simp [h'])
        · exact Or.inr (by simp [h])
    have hstk : ∀ i ∈ dkeys (if hard then dset st m.id (dget st m.id 0 + 1) else st),
        i ∈ dkeys st ∨ i = m.id := by
      intro i hi
      by_cases hh : hard
      · rw [if_pos hh] at hi
        rcases dkeys_dset_subset _ _ _ i hi with h | h
        · exact Or.inr h
        · exact Or.inl h
      · rw [if_neg hh] at hi
        exact Or.inl hi
    cases hpm : q.predicate m with
    | none =>
      simp only [pass_pn, hpm]
      exact step _ _ (fun i hi => Or.inl hi) (fun i hi => Or.inl hi)
    | some b =>
      cases b
      · simp only [pass_pn, hpm]
        refine step _ _ (fun i hi => ?_) (fun i hi => Or.inl hi)
        rcases dkeys_dset_subset _ _ _ i hi with h | h
        · exact Or.inr h
        · exact Or.inl h
      · simp only [pass_pn, hpm]
        refine step _ _ (fun i hi => ?_) hstk
        rcases dkeys_dset_subset _ _ _ i hi with h | h
        · exact Or.inr h
        · exact Or.inl h

theorem dkeys_pass_unk_subset (q : Question) (l : List Movie) (sc : List (ℤ × ℚ)) :
    ∀ j ∈ dkeys (pass_unk q l sc), j ∈ dkeys sc ∨ j ∈ l.map Movie.id := by
  induction l generalizing sc with
  | nil => intro j hj; exact Or.inl hj
  | cons m rest ih =>
    intro j hj
    have step : ∀ sc' : List (ℤ × ℚ),
        (∀ i ∈ dkeys sc', i ∈ dkeys sc ∨ i = m.id) →
        j ∈ dkeys (pass_unk q rest sc') →
        j ∈ dkeys sc ∨ j ∈ (m :: rest).map Movie.id := by
      intro sc' hsub hj'
      rcases ih sc' j hj' with h | h
      · rcases hsub j h with h' | h'
        · exact Or.inl h'
        · exact Or.inr (by simp [h'])
      · exact Or.inr (by simp [h])
    cases hpm : q.predicate m with
    | none =>
      simp only [pass_unk, hpm] at hj
      refine step _ (fun i hi => ?_) hj
      rcases dkeys_dset_subset _ _ _ i hi with h | h
      · exact Or.inr h
      · exact Or.inl h
    | some b =>
      simp only [pass_unk, hpm] at hj
      exact step _ (fun i hi => Or.inl hi) hj

/-! ## Strike elimination and sorting lemmas -/

theorem sort_state_candidates_mem (s : EngineState) (m : Movie) :
    m ∈ (sort_state s).candidates ↔ m ∈ s.candidates := by
  simp [sort_state, List.mem_mergeSort]

theorem sort_state_scores (s : EngineState) : (sort_state s).scores = s.scores := rfl

theorem sort_state_strikes (s : EngineState) : (sort_state s).strikes = s.strikes := rfl

theorem mem_ids_iff (l : List Movie) (j : ℤ) :
    j ∈ l.map Movie.id ↔ ∃ m ∈ l, m.id = j := by
  simp [List.mem_map, eq_comm]

theorem id_inj_of_nodup (l : List Movie) (hnd : (l.map Movie.id).Nodup) :
    ∀ m1 ∈ l, ∀ m2 ∈ l, m1.id = m2.id → m1 = m2 :=
  fun _ h1 _ h2 he => List.inj_on_of_nodup_map hnd h1 h2 he

theorem strike_elim_mem (k : ℕ) (s1 : EngineState)
    (hnd : (s1.candidates.map Movie.id).Nodup) (m : Movie) :
    m ∈ (strike_elimination_step k s1).candidates ↔
      m ∈ s1.candidates ∧ dget s1.strikes m.id 0 < k := by
  simp only [strike_elimination_step]
  split_ifs with h
  · constructor
    · intro hm
      refine ⟨hm, ?_⟩
      by_contra hk
      push_neg at hk
      have : m.id ∈ (s1.candidates.filter
          (fun x => decide (k ≤ dget s1.strikes x.id 0))).map Movie.id :=
        List.mem_map.mpr ⟨m, List.mem_filter.mpr ⟨hm, by simpa using hk⟩, rfl⟩
      rw [h] at this
      cases this
    · exact fun hm => hm.1
  · constructor
    · intro hm
      simp only [List.mem_filter] at hm
      obtain ⟨hm1, hm2⟩ := hm
      refine ⟨hm1, ?_⟩
      by_contra hk
      push_neg at hk
      have : m.id ∈ (s1.candidates.filter
          (fun x => decide (k ≤ dget s1.strikes x.id 0))).map Movie.id :=
        List.mem_map.mpr ⟨m, List.mem_filter.mpr ⟨hm1, by simpa using hk⟩, rfl⟩
      rw [decide_eq_true_iff] at hm2
      exact hm2 this
    · rintro ⟨hm1, hm2⟩
      refine List.mem_filter.mpr ⟨hm1, ?_⟩
      rw [decide_eq_true_iff]
      intro hmem
      rw [mem_ids_iff] at hmem
      obtain ⟨m', hm', he⟩ := hmem
      rw [List.mem_filter] at hm'
      obtain ⟨hm'1, hm'2⟩ := hm'
      have hmm : m' = m := id_inj_of_nodup _ hnd m' hm'1 m hm1 he
      subst hmm
      rw [decide_eq_true_iff] at hm'2
      exact absurd hm'2 (by omega)

theorem strike_elim_scores_of_mem (k : ℕ) (s1 : EngineState) (m : Movie)
    (hm : m ∈ (strike_elimination_step k s1).candidates) :
    dget (strike_elimination_step k s1).scores m.id 0 = dget s1.scores m.id 0 := by
  simp only [strike_elimination_step] at hm ⊢
  set tr := (s1.candidates.filter
    (fun x => decide (k ≤ dget s1.strikes x.id 0))).map Movie.id with htr
  split_ifs at hm ⊢ with h
  · rfl
  · dsimp only at hm ⊢
    rw [List.mem_filter] at hm
    exact dget_filter_of_pos s1.scores (fun j => decide (j ∉ tr)) m.id 0 hm.2

theorem strike_elim_strikes_of_mem (k : ℕ) (s1 : EngineState) (m : Movie)
    (hm : m ∈ (strike_elimination_step k s1).candidates) :
    dget (strike_elimination_step k s1).strikes m.id 0 = dget s1.strikes m.id 0 := by
  simp only [strike_elimination_step] at hm ⊢
  set tr := (s1.candidates.filter
    (fun x => decide (k ≤ dget s1.strikes x.id 0))).map Movie.id with htr
  split_ifs at hm ⊢ with h
  · rfl
  · dsimp only at hm ⊢
    rw [List.mem_filter] at hm
    exact dget_filter_of_pos s1.strikes (fun j => decide (j ∉ tr)) m.id 0 hm.2

theorem strike_elim_purge (k : ℕ) (s1 : EngineState) (m : Movie)
    (hm1 : m ∈ s1.candidates) (hm2 : m ∉ (strike_elimination_step k s1).candidates) :
    m.id ∉ dkeys (strike_elimination_step k s1).scores ∧
    m.id ∉ dkeys (strike_elimination_step k s1).strikes := by
  simp only [strike_elimination_step] at hm2 ⊢
  set tr := (s1.candidates.filter
    (fun x => decide (k ≤ dget s1.strikes x.id 0))).map Movie.id with htr
  split_ifs at hm2 ⊢ with h
  · exact absurd hm1 hm2
  · dsimp only at hm2 ⊢
    have hid : (fun j => decide (j ∉ tr)) m.id = false := by
      by_contra hc
      rw [Bool.not_eq_false] at hc
      exact hm2 (List.mem_filter.mpr ⟨hm1, hc⟩)
    constructor
    · intro hmem
      have := mem_dkeys_filter s1.scores (fun j => decide (j ∉ tr)) m.id hmem
      rw [hid] at this
      cases this.2
    · intro hmem
      have := mem_dkeys_filter s1.strikes (fun j => decide (j ∉ tr)) m.id hmem
      rw [hid] at this
      cases this.2

theorem strike_elim_keys_sub (k : ℕ) (s1 : EngineState)
    (hs : ∀ j ∈ dkeys s1.scores, j ∈ s1.candidates.map Movie.id)
    (ht : ∀ j ∈ dkeys s1.strikes, j ∈ s1.candidates.map Movie.id) :
    (∀ j ∈ dkeys (strike_elimination_step k s1).scores,
        j ∈ (strike_elimination_step k s1).candidates.map Movie.id) ∧
    (∀ j ∈ dkeys (strike_elimination_step k s1).strikes,
        j ∈ (strike_elimination_step k s1).candidates.map Movie.id) := by
  simp only [strike_elimination_step]
  set tr := (s1.candidates.filter
    (fun x => decide (k ≤ dget s1.strikes x.id 0))).map Movie.id with htr
  split_ifs with h
  · exact ⟨hs, ht⟩
  · dsimp only
    constructor
    · intro j hj
      obtain ⟨hj1, hj2⟩ := mem_dkeys_filter s1.scores (fun i => decide (i ∉ tr)) j hj
      obtain ⟨m, hm, rfl⟩ := (mem_ids_iff _ _).mp (hs j hj1)
      exact List.mem_map.mpr ⟨m, List.mem_filter.mpr ⟨hm, hj2⟩, rfl⟩
    · intro j hj
      obtain ⟨hj1, hj2⟩ := mem_dkeys_filter s1.strikes (fun i => decide (i ∉ tr)) j hj
      obtain ⟨m, hm, rfl⟩ := (mem_ids_iff _ _).mp (ht j hj1)
      exact List.mem_map.mpr ⟨m, List.mem_filter.mpr ⟨hm, hj2⟩, rfl⟩

theorem pass_yes_sublist (q : Question) (hard : Bool) (l : List Movie)
    (sc : List (ℤ × ℚ)) : (pass_yes q hard l sc).1.Sublist l := by
  induction l generalizing sc with
  | nil => simp [pass_yes]
  | cons m rest ih =>
    cases hpm : q.predicate m with
    | none => simpa only [pass_yes, hpm] using (ih _).cons₂ m
    | some b =>
      cases b
      · simpa only [pass_yes, hpm] using (ih _).cons m
      · simpa only [pass_yes, hpm] using (ih _).cons₂ m

theorem pass_no_sublist (q : Question) (hard : Bool) (l : List Movie)
    (sc : List (ℤ × ℚ)) : (pass_no q hard l sc).1.Sublist l := by
  induction l generalizing sc with
  | nil => simp [pass_no]
  | cons m rest ih =>
    cases hpm : q.predicate m with
    | none => simpa only [pass_no, hpm] using (ih _).cons₂ m
    | some b =>
      cases b
      · simpa only [pass_no, hpm] using (ih _).cons₂ m
      · simpa only [pass_no, hpm] using (ih _).cons m

/-! ## Post-state lemmas for the five answer branches -/

theorem post_yes_mem (s : EngineState) (q : Question) (m : Movie) :
    m ∈ (post_yes_state s q).candidates ↔
      m ∈ s.candidates ∧ q.predicate m ≠ some false := by
  simp only [post_yes_state]
  exact mem_pass_yes _ _ _ _ m

theorem post_yes_id_not_remaining (s : EngineState) (q : Question) (m : Movie)
    (hnd : (s.candidates.map Movie.id).Nodup) (hm1 : m ∈ s.candidates)
    (hm2 : m ∉ (post_yes_state s q).candidates) :
    m.id ∉ (pass_yes q (is_hard_elimination q.key) s.candidates s.scores).1.map Movie.id := by
  intro hc
  obtain ⟨m', hm', he⟩ := (mem_ids_iff _ _).mp hc
  have hm'c : m' ∈ s.candidates :=
    ((mem_pass_yes _ _ _ _ m').mp hm').1
  have : m' = m := id_inj_of_nodup _ hnd m' hm'c m hm1 he
  subst this
  exact hm2 (by simpa [post_yes_state] using hm')

theorem post_yes_scores_of_mem (s : EngineState) (q : Question) (m : Movie)
    (hnd : (s.candidates.map Movie.id).Nodup)
    (hm : m ∈ (post_yes_state s q).candidates) :
    dget (post_yes_state s q).scores m.id 0 =
      dget s.scores m.id 0 + yes_contrib q (is_hard_elimination q.key) m := by
  have hm' : m ∈ (pass_yes q (is_hard_elimination q.key) s.candidates s.scores).1 := hm
  have hmc : m ∈ s.candidates := ((mem_pass_yes _ _ _ _ m).mp hm').1
  have hid : m.id ∈ (pass_yes q (is_hard_elimination q.key) s.candidates s.scores).1.map
      Movie.id := List.mem_map.mpr ⟨m, hm', rfl⟩
  show dget (List.filter _ _) m.id 0 = _
  rw [dget_filter_of_pos _
    (fun j => decide (j ∈ (pass_yes q (is_hard_elimination q.key)
      s.candidates s.scores).1.map Movie.id)) m.id 0 (by simpa using hid)]
  exact pass_yes_scores_mem _ _ _ _ m hnd hmc

theorem post_yes_strikes_of_mem (s : EngineState) (q : Question) (m : Movie)
    (hm : m ∈ (post_yes_state s q).candidates) :
    dget (post_yes_state s q).strikes m.id 0 = dget s.strikes m.id 0 := by
  have hm' : m ∈ (pass_yes q (is_hard_elimination q.key) s.candidates s.scores).1 := hm
  have hid : m.id ∈ (pass_yes q (is_hard_elimination q.key) s.candidates s.scores).1.map
      Movie.id := List.mem_map.mpr ⟨m, hm', rfl⟩
  show dget (List.filter _ _) m.id 0 = _
  exact dget_filter_of_pos _
    (fun j => decide (j ∈ (pass_yes q (is_hard_elimination q.key)
      s.candidates s.scores).1.map Movie.id)) m.id 0 (by simpa using hid)

theorem post_yes_purge (s : EngineState) (q : Question) (m : Movie)
    (hnd : (s.candidates.map Movie.id).Nodup) (hm1 : m ∈ s.candidates)
    (hm2 : m ∉ (post_yes_state s q).candidates) :
    m.id ∉ dkeys (post_yes_state s q).scores ∧
    m.id ∉ dkeys (post_yes_state s q).strikes := by
  have hnr := post_yes_id_not_remaining s q m hnd hm1 hm2
  constructor
  · intro hmem
    have := mem_dkeys_filter _
      (fun j => decide (j ∈ (pass_yes q (is_hard_elimination q.key)
        s.candidates s.scores).1.map Movie.id)) m.id hmem
    exact hnr (by simpa using this.2)
  · intro hmem
    have := mem_dkeys_filter _
      (fun j => decide (j ∈ (pass_yes q (is_hard_elimination q.key)
        s.candidates s.scores).1.map Movie.id)) m.id hmem
    exact hnr (by simpa using this.2)

theorem post_yes_nodup (s : EngineState) (q : Question)
    (hnd : (s.candidates.map Movie.id).Nodup) :
    ((post_yes_state s q).candidates.map Movie.id).Nodup :=
  hnd.sublist ((pass_yes_sublist q (is_hard_elimination q.key)
    s.candidates s.scores).map Movie.id)

theorem post_yes_keys_sub (s : EngineState) (q : Question) :
    (∀ j ∈ dkeys (post_yes_state s q).scores,
        j ∈ (post_yes_state s q).candidates.map Movie.id) ∧
    (∀ j ∈ dkeys (post_yes_state s q).strikes,
        j ∈ (post_yes_state s q).candidates.map Movie.id) := by
  constructor
  · intro j hj
    have := mem_dkeys_filter _
      (fun i => decide (i ∈ (pass_yes q (is_hard_elimination q.key)
        s.candidates s.scores).1.map Movie.id)) j hj
    simpa using this.2
  · intro j hj
    have := mem_dkeys_filter _
      (fun i => decide (i ∈ (pass_yes q (is_hard_elimination q.key)
        s.candidates s.scores).1.map Movie.id)) j hj
    simpa using this.2

theorem post_no_mem (s : EngineState) (q : Question) (m : Movie) :
    m ∈ (post_no_state s q).candidates ↔
      m ∈ s.candidates ∧ q.predicate m ≠ some true := by
  simp only [post_no_state]
  exact mem_pass_no _ _ _ _ m

theorem post_no_id_not_remaining (s : EngineState) (q : Question) (m : Movie)
    (hnd : (s.candidates.map Movie.id).Nodup) (hm1 : m ∈ s.candidates)
    (hm2 : m ∉ (post_no_state s q).candidates) :
    m.id ∉ (pass_no q (is_hard_elimination q.key) s.candidates s.scores).1.map Movie.id := by
  intro hc
  obtain ⟨m', hm', he⟩ := (mem_ids_iff _ _).mp hc
  have hm'c : m' ∈ s.candidates :=
    ((mem_pass_no _ _ _ _ m').mp hm').1
  have : m' = m := id_inj_of_nodup _ hnd m' hm'c m hm1 he
  subst this
  exact hm2 (by simpa [post_no_state] using hm')

theorem post_no_scores_of_mem (s : EngineState) (q : Question) (m : Movie)
    (hnd : (s.candidates.map Movie.id).Nodup)
    (hm : m ∈ (post_no_state s q).candidates) :
    dget (post_no_state s q).scores m.id 0 =
      dget s.scores m.id 0 + no_contrib q (is_hard_elimination q.key) m := by
  have hm' : m ∈ (pass_no q (is_hard_elimination q.key) s.candidates s.scores).1 := hm
  have hmc : m ∈ s.candidates := ((mem_pass_no _ _ _ _ m).mp hm').1
  have hid : m.id ∈ (pass_no q (is_hard_elimination q.key) s.candidates s.scores).1.map
      Movie.id := List.mem_map.mpr ⟨m, hm', rfl⟩
  show dget (List.filter _ _) m.id 0 = _
  rw [dget_filter_of_pos _
    (fun j => decide (j ∈ (pass_no q (is_hard_elimination q.key)
      s.candidates s.scores).1.map Movie.id)) m.id 0 (by simpa using hid)]
  exact pass_no_scores_mem _ _ _ _ m hnd hmc

theorem post_no_strikes_of_mem (s : EngineState) (q : Question) (m : Movie)
    (hm : m ∈ (post_no_state s q).candidates) :
    dget (post_no_state s q).strikes m.id 0 = dget s.strikes m.id 0 := by
  have hm' : m ∈ (pass_no q (is_hard_elimination q.key) s.candidates s.scores).1 := hm
  have hid : m.id ∈ (pass_no q (is_hard_elimination q.key) s.candidates s.scores).1.map
      Movie.id := List.mem_map.mpr ⟨m, hm', rfl⟩
  show dget (List.filter _ _) m.id 0 = _
  exact dget_filter_of_pos _
    (fun j => decide (j ∈ (pass_no q (is_hard_elimination q.key)
      s.candidates s.scores).1.map Movie.id)) m.id 0 (by simpa using hid)

theorem post_no_purge (s : EngineState) (q : Question) (m : Movie)
    (hnd : (s.candidates.map Movie.id).Nodup) (hm1 : m ∈ s.candidates)
    (hm2 : m ∉ (post_no_state s q).candidates) :
    m.id ∉ dkeys (post_no_state s q).scores ∧
    m.id ∉ dkeys (post_no_state s q).strikes := by
  have hnr := post_no_id_not_remaining s q m hnd hm1 hm2
  constructor
  · intro hmem
    have := mem_dkeys_filter _
      (fun j => decide (j ∈ (pass_no q (is_hard_elimination q.key)
        s.candidates s.scores).1.map Movie.id)) m.id hmem
    exact hnr (by simpa using this.2)
  · intro hmem
    have := mem_dkeys_filter _
      (fun j => decide (j ∈ (pass_no q (is_hard_elimination q.key)
        s.candidates s.scores).1.map Movie.id)) m.id hmem
    exact hnr (by simpa using this.2)

theorem post_no_nodup (s : EngineState) (q : Question)
    (hnd : (s.candidates.map Movie.id).Nodup) :
    ((post_no_state s q).candidates.map Movie.id).Nodup :=
  hnd.sublist ((pass_no_sublist q (is_hard_elimination q.key)
    s.candidates s.scores).map Movie.id)

theorem post_no_keys_sub (s : EngineState) (q : Question) :
    (∀ j ∈ dkeys (post_no_state s q).scores,
        j ∈ (post_no_state s q).candidates.map Movie.id) ∧
    (∀ j ∈ dkeys (post_no_state s q).strikes,
        j ∈ (post_no_state s q).candidates.map Movie.id) := by
  constructor
  · intro j hj
    have := mem_dkeys_filter _
      (fun i => decide (i ∈ (pass_no q (is_hard_elimination q.key)
        s.candidates s.scores).1.map Movie.id)) j hj
    simpa using this.2
  · intro j hj
    have := mem_dkeys_filter _
      (fun i => decide (i ∈ (pass_no q (is_hard_elimination q.key)
        s.candidates s.scores).1.map Movie.id)) j hj
    simpa using this.2

theorem strike_elim_scores_keys_sub (k : ℕ) (s1 : EngineState) (j : ℤ)
    (hj : j ∈ dkeys (strike_elimination_step k s1).scores) : j ∈ dkeys s1.scores := by
  simp only [strike_elimination_step] at hj
  set tr := (s1.candidates.filter
    (fun x => decide (k ≤ dget s1.strikes x.id 0))).map Movie.id with htr
  split_ifs at hj with h
  · exact hj
  · exact (mem_dkeys_filter s1.scores (fun i => decide (i ∉ tr)) j hj).1

theorem strike_elim_strikes_keys_sub (k : ℕ) (s1 : EngineState) (j : ℤ)
    (hj : j ∈ dkeys (strike_elimination_step k s1).strikes) : j ∈ dkeys s1.strikes := by
  simp only [strike_elimination_step] at hj
  set tr := (s1.candidates.filter
    (fun x => decide (k ≤ dget s1.strikes x.id 0))).map Movie.id with htr
  split_ifs at hj with h
  · exact hj
  · exact (mem_dkeys_filter s1.strikes (fun i => decide (i ∉ tr)) j hj).1

theorem update_y_eq (s : EngineState) (q : Question) (k : ℕ) :
    update_state_with_answer s q "y" k =
      sort_state (if is_hard_elimination q.key then post_yes_state s q
        else strike_elimination_step k (post_yes_state s q)) := rfl

theorem update_n_eq (s : EngineState) (q : Question) (k : ℕ) :
    update_state_with_answer s q "n" k =
      sort_state (if is_hard_elimination q.key then post_no_state s q
        else strike_elimination_step k (post_no_state s q)) := rfl

theorem update_unk_eq (s : EngineState) (q : Question) (k : ℕ) :
    update_state_with_answer s q "?" k =
      sort_state (if is_hard_elimination q.key then post_unk_state s q
        else strike_elimination_step k (post_unk_state s q)) := rfl

theorem update_py_eq (s : EngineState) (q : Question) (k : ℕ) :
    update_state_with_answer s q "py" k =
      sort_state (if is_hard_elimination q.key then post_py_state s q
        else strike_elimination_step k (post_py_state s q)) := rfl

theorem update_pn_eq (s : EngineState) (q : Question) (k : ℕ) :
    update_state_with_answer s q "pn" k =
      sort_state (if is_hard_elimination q.key then post_pn_state s q
        else strike_elimination_step k (post_pn_state s q)) := rfl

theorem update_other_eq (s : EngineState) (q : Question) (k : ℕ) (ans : String)
    (h1 : ans ≠ "y") (h2 : ans ≠ "n") (h3 : ans ≠ "py") (h4 : ans ≠ "pn")
    (h5 : ans ≠ "?") :
    update_state_with_answer s q ans k =
      sort_state (if is_hard_elimination q.key then s
        else strike_elimination_step k s) := by
  unfold update_state_with_answer
  rw [if_neg h1, if_neg h2, if_neg h3, if_neg h4, if_neg h5]

theorem update_yes_char (s : EngineState) (q : Question) (k : ℕ) (m : Movie)
    (hnd : (s.candidates.map Movie.id).Nodup) :
    (m ∈ (update_state_with_answer s q "y" k).candidates ↔
       m ∈ s.candidates ∧ q.predicate m ≠ some false ∧
         (is_hard_elimination q.key = true ∨ dget s.strikes m.id 0 < k)) ∧
    (m ∈ (update_state_with_answer s q "y" k).candidates →
       dget (update_state_with_answer s q "y" k).scores m.id 0 =
         dget s.scores m.id 0 + yes_contrib q (is_hard_elimination q.key) m) ∧
    (m ∈ s.candidates → m ∉ (update_state_with_answer s q "y" k).candidates →
       m.id ∉ dkeys (update_state_with_answer s q "y" k).scores ∧
       m.id ∉ dkeys (update_state_with_answer s q "y" k).strikes) := by
  rw [update_y_eq]
  by_cases hh : is_hard_elimination q.key = true
  · rw [if_pos hh]
    refine ⟨?_, ?_, ?_⟩
    · rw [sort_state_candidates_mem, post_yes_mem]
      constructor
      · rintro ⟨h1, h2⟩
        exact ⟨h1, h2, Or.inl hh⟩
      · rintro ⟨h1, h2, _⟩
        exact ⟨h1, h2⟩
    · intro hm
      rw [sort_state_candidates_mem] at hm
      rw [sort_state_scores]
      exact post_yes_scores_of_mem s q m hnd hm
    · intro hm1 hm2
      rw [sort_state_candidates_mem] at hm2
      rw [sort_state_scores, sort_state_strikes]
      exact post_yes_purge s q m hnd hm1 hm2
  · rw [if_neg hh]
    have hnd1 := post_yes_nodup s q hnd
    refine ⟨?_, ?_, ?_⟩
    · rw [sort_state_candidates_mem, strike_elim_mem k _ hnd1 m]
      constructor
      · rintro ⟨h1, h2⟩
        rw [post_yes_strikes_of_mem s q m h1] at h2
        obtain ⟨h3, h4⟩ := (post_yes_mem s q m).mp h1
        exact ⟨h3, h4, Or.inr h2⟩
      · rintro ⟨h1, h2, h3⟩
        have hpost : m ∈ (post_yes_state s q).candidates := (post_yes_mem s q m).mpr ⟨h1, h2⟩
        refine ⟨hpost, ?_⟩
        rw [post_yes_strikes_of_mem s q m hpost]
        rcases h3 with h3 | h3
        · exact absurd h3 hh
        · exact h3
    · intro hm
      rw [sort_state_candidates_mem] at hm
      rw [sort_state_scores]
      have hpost : m ∈ (post_yes_state s q).candidates :=
        ((strike_elim_mem k _ hnd1 m).mp hm).1
      rw [strike_elim_scores_of_mem k _ m hm]
      exact post_yes_scores_of_mem s q m hnd hpost
    · intro hm1 hm2
      rw [sort_state_candidates_mem] at hm2
      rw [sort_state_scores, sort_state_strikes]
      by_cases hmp : m ∈ (post_yes_state s q).candidates
      · exact strike_elim_purge k _ m hmp hm2
      · have hpp := post_yes_purge s q m hnd hm1 hmp
        constructor
        · intro hmem
          exact hpp.1 (strike_elim_scores_keys_sub k _ m.id hmem)
        · intro hmem
          exact hpp.2 (strike_elim_strikes_keys_sub k _ m.id hmem)

theorem update_no_char (s : EngineState) (q : Question) (k : ℕ) (m : Movie)
    (hnd : (s.candidates.map Movie.id).Nodup) :
    (m ∈ (update_state_with_answer s q "n" k).candidates ↔
       m ∈ s.candidates ∧ q.predicate m ≠ some true ∧
         (is_hard_elimination q.key = true ∨ dget s.strikes m.id 0 < k)) ∧
    (m ∈ (update_state_with_answer s q "n" k).candidates →
       dget (update_state_with_answer s q "n" k).scores m.id 0 =
         dget s.scores m.id 0 + no_contrib q (is_hard_elimination q.key) m) ∧
    (m ∈ s.candidates → m ∉ (update_state_with_answer s q "n" k).candidates →
       m.id ∉ dkeys (update_state_with_answer s q "n" k).scores ∧
       m.id ∉ dkeys (update_state_with_answer s q "n" k).strikes) := by
  rw [update_n_eq]
  by_cases hh : is_hard_elimination q.key = true
  · rw [if_pos hh]
    refine ⟨?_, ?_, ?_⟩
    · rw [sort_state_candidates_mem, post_no_mem]
      constructor
      · rintro ⟨h1, h2⟩
        exact ⟨h1, h2, Or.inl hh⟩
      · rintro ⟨h1, h2, _⟩
        exact ⟨h1, h2⟩
    · intro hm
      rw [sort_state_candidates_mem] at hm
      rw [sort_state_scores]
      exact post_no_scores_of_mem s q m hnd hm
    · intro hm1 hm2
      rw [sort_state_candidates_mem] at hm2
      rw [sort_state_scores, sort_state_strikes]
      exact post_no_purge s q m hnd hm1 hm2
  · rw [if_neg hh]
    have hnd1 := post_no_nodup s q hnd
    refine ⟨?_, ?_, ?_⟩
    · rw [sort_state_candidates_mem, strike_elim_mem k _ hnd1 m]
      constructor
      · rintro ⟨h1, h2⟩
        rw [post_no_strikes_of_mem s q m h1] at h2
        obtain ⟨h3, h4⟩ := (post_no_mem s q m).mp h1
        exact ⟨h3, h4, Or.inr h2⟩
      · rintro ⟨h1, h2, h3⟩
        have hpost : m ∈ (post_no_state s q).candidates := (post_no_mem s q m).mpr ⟨h1, h2⟩
        refine ⟨hpost, ?_⟩
        rw [post_no_strikes_of_mem s q m hpost]
        rcases h3 with h3 | h3
        · exact absurd h3 hh
        · exact h3
    · intro hm
      rw [sort_state_candidates_mem] at hm
      rw [sort_state_scores]
      have hpost : m ∈ (post_no_state s q).candidates :=
        ((strike_elim_mem k _ hnd1 m).mp hm).1
      rw [strike_elim_scores_of_mem k _ m hm]
      exact post_no_scores_of_mem s q m hnd hpost
    · intro hm1 hm2
      rw [sort_state_candidates_mem] at hm2
      rw [sort_state_scores, sort_state_strikes]
      by_cases hmp : m ∈ (post_no_state s q).candidates
      · exact strike_elim_purge k _ m hmp hm2
      · have hpp := post_no_purge s q m hnd hm1 hmp
        constructor
        · intro hmem
          exact hpp.1 (strike_elim_scores_keys_sub k _ m.id hmem)
        · intro hmem
          exact hpp.2 (strike_elim_strikes_keys_sub k _ m.id hmem)

theorem post_unk_candidates (s : EngineState) (q : Question) :
    (post_unk_state s q).candidates = s.candidates := rfl

theorem post_unk_strikes (s : EngineState) (q : Question) :
    (post_unk_state s q).strikes = s.strikes := rfl

theorem post_unk_scores_of_mem (s : EngineState) (q : Question) (m : Movie)
    (hnd : (s.candidates.map Movie.id).Nodup) (hm : m ∈ s.candidates) :
    dget (post_unk_state s q).scores m.id 0 = dget s.scores m.id 0 + unk_contrib q m :=
  pass_unk_scores_mem q s.candidates s.scores m hnd hm

theorem update_unk_char (s : EngineState) (q : Question) (k : ℕ) (m : Movie)
    (hnd : (s.candidates.map Movie.id).Nodup) :
    (m ∈ (update_state_with_answer s q "?" k).candidates ↔
       m ∈ s.candidates ∧
         (is_hard_elimination q.key = true ∨ dget s.strikes m.id 0 < k)) ∧
    (m ∈ (update_state_with_answer s q "?" k).candidates →
       dget (update_state_with_answer s q "?" k).scores m.id 0 =
         dget s.scores m.id 0 + unk_contrib q m) := by
  rw [update_unk_eq]
  by_cases hh : is_hard_elimination q.key = true
  · rw [if_pos hh]
    constructor
    · rw [sort_state_candidates_mem, post_unk_candidates]
      constructor
      · intro h1
        exact ⟨h1, Or.inl hh⟩
      · rintro ⟨h1, _⟩
        exact h1
    · intro hm
      rw [sort_state_candidates_mem, post_unk_candidates] at hm
      rw [sort_state_scores]
      exact post_unk_scores_of_mem s q m hnd hm
  · rw [if_neg hh]
    have hnd1 : ((post_unk_state s q).candidates.map Movie.id).Nodup := by
      rw [post_unk_candidates]
      exact hnd
    constructor
    · rw [sort_state_candidates_mem, strike_elim_mem k _ hnd1 m, post_unk_candidates,
        post_unk_strikes]
      constructor
      · rintro ⟨h1, h2⟩
        exact ⟨h1, Or.inr h2⟩
      · rintro ⟨h1, h2 | h2⟩
        · exact absurd h2 hh
        · exact ⟨h1, h2⟩
    · intro hm
      rw [sort_state_candidates_mem] at hm
      rw [sort_state_scores]
      have hpost : m ∈ (post_unk_state s q).candidates :=
        ((strike_elim_mem k _ hnd1 m).mp hm).1
      rw [post_unk_candidates] at hpost
      rw [strike_elim_scores_of_mem k _ m hm]
      exact post_unk_scores_of_mem s q m hnd hpost

/-- Claim C2 (amended): on a pool whose film ids are distinct, a definite Yes
removes exactly the candidates whose predicate returns False — and, when the
question is not hard-category, additionally the kept candidates whose strike
count has already reached `max_strikes` — purging the Scores/Strikes entries
of every removed film; surviving True films gain `yes_boost(q.key)` and
surviving Unknown films take `-2.0` (hard) / `-0.5` (soft), as recorded by
`yes_contrib`.  A definite No is symmetric (`no_contrib`: `no_boost` for
False films, `-1.0` hard / `+0.3` soft for Unknown films), removing the True
films. -/
theorem claim_C2_definite_answers (s : EngineState) (q : Question) (k : ℕ) (m : Movie)
    (hnd : (s.candidates.map Movie.id).Nodup) :
    ((m ∈ (update_state_with_answer s q "y" k).candidates ↔
        m ∈ s.candidates ∧ q.predicate m ≠ some false ∧
          (is_hard_elimination q.key = true ∨ dget s.strikes m.id 0 < k)) ∧
      (m ∈ (update_state_with_answer s q "y" k).candidates →
        dget (update_state_with_answer s q "y" k).scores m.id 0 =
          dget s.scores m.id 0 + yes_contrib q (is_hard_elimination q.key) m) ∧
      (m ∈ s.candidates → m ∉ (update_state_with_answer s q "y" k).candidates →
        m.id ∉ dkeys (update_state_with_answer s q "y" k).scores ∧
        m.id ∉ dkeys (update_state_with_answer s q "y" k).strikes)) ∧
    ((m ∈ (update_state_with_answer s q "n" k).candidates ↔
        m ∈ s.candidates ∧ q.predicate m ≠ some true ∧
          (is_hard_elimination q.key = true ∨ dget s.strikes m.id 0 < k)) ∧
      (m ∈ (update_state_with_answer s q "n" k).candidates →
        dget (update_state_with_answer s q "n" k).scores m.id 0 =
          dget s.scores m.id 0 + no_contrib q (is_hard_elimination q.key) m) ∧
      (m ∈ s.candidates → m ∉ (update_state_with_answer s q "n" k).candidates →
        m.id ∉ dkeys (update_state_with_answer s q "n" k).scores ∧
        m.id ∉ dkeys (update_state_with_answer s q "n" k).strikes)) :=
  ⟨update_yes_char s q k m hnd, update_no_char s q k m hnd⟩

/-- A soft (non hard-category) question whose predicate holds everywhere. -/
def cxq_soft : Question :=
  { key := "genre_comedy", text := "Comedie ?", predicate := fun _ => some true }

def cxA : Movie := ⟨1, "A", none, 1, none⟩

/-- A reachable state in which film 1 already carries `max_strikes` strikes
(accumulated through hard ProbablyYes/ProbablyNo answers, whose branch skips
the strike elimination step). -/
def cx_state : EngineState :=
  { candidates := [cxA], asked := ∅, scores := [(1, 0)], strikes := [(1, 3)],
    question_count := 6, guess_cooldown := 0, top_streak_mid := some 1,
    top_streak_len := 1, consecutive_guesses := 0, recent_question_types := [] }

/-- Counterexample to C2 as stated: film 1 answers True to the Yes-answered
soft question, yet `update_state_with_answer` removes it (its strikes already
reached `max_strikes`, and the strike elimination step runs after every
non-hard answer) — so Yes does not remove *exactly* the False films. -/
theorem claim_C2_counterexample :
    cxq_soft.predicate cxA = some true ∧ cxA ∈ cx_state.candidates ∧
    cxA ∉ (update_state_with_answer cx_state cxq_soft "y" 3).candidates := by
  refine ⟨by decide, by decide, ?_⟩
  intro hmem
  have h := (update_yes_char cx_state cxq_soft 3 cxA (by decide)).1.mp hmem
  rcases h.2.2 with h3 | h3
  · exact absurd h3 (by decide)
  · exact absurd h3 (by decide)

def wqA : Movie := ⟨1, "A", some "1980-01-01", 7, some "en"⟩
def wqB : Movie := ⟨2, "B", some "2000-01-01", 5, some "fr"⟩

def wq_question : Question :=
  { key := "genre_action", text := "Action ?",
    predicate := fun m => some (decide (m.original_language = some "en")) }

def wq_state : EngineState :=
  { candidates := [wqA, wqB], asked := ∅, scores := [(1, 0), (2, 0)],
    strikes := [], question_count := 0, guess_cooldown := 0,
    top_streak_mid := none, top_streak_len := 0, consecutive_guesses := 0,
    recent_question_types := [] }

/-- Witness for C2: on a two-film pool, answering Yes keeps the True film with
`yes_boost("genre_") = 3` added and drops the False film, purging its entries. -/
theorem claim_C2_definite_answers_witness :
    wqB ∉ (update_state_with_answer wq_state wq_question "y" 3).candidates ∧
    (2 : ℤ) ∉ dkeys (update_state_with_answer wq_state wq_question "y" 3).scores ∧
    wqA ∈ (update_state_with_answer wq_state wq_question "y" 3).candidates ∧
    dget (update_state_with_answer wq_state wq_question "y" 3).scores wqA.id 0 = 3 := by
  have hB := claim_C2_definite_answers wq_state wq_question 3 wqB (by decide)
  have hA := claim_C2_definite_answers wq_state wq_question 3 wqA (by decide)
  have hBnot : wqB ∉ (update_state_with_answer wq_state wq_question "y" 3).candidates := by
    rw [hB.1.1]
    decide
  have hAmem : wqA ∈ (update_state_with_answer wq_state wq_question "y" 3).candidates := by
    rw [hA.1.1]
    decide
  refine ⟨hBnot, ?_, hAmem, ?_⟩
  · have := (hB.1.2.2 (by decide) hBnot).1
    simpa using this
  · rw [hA.1.2.1 hAmem]
    have h0 : dget wq_state.scores wqA.id 0 = 0 := rfl
    have hc : yes_contrib wq_question (is_hard_elimination wq_question.key) wqA = 3 := rfl
    rw [h0, hc]
    norm_num

/-- Claim C5 (amended): an Unknown answer gives `+0.2` to candidates whose
predicate returns Unknown and leaves every other score unchanged (so no score
ever decreases), and it removes no candidate — except that, exactly as after
any other non-hard answer, a candidate whose strike count already reached
`max_strikes` is eliminated by the strike elimination step when the question
is not hard-category. -/
theorem claim_C5_unknown_answer (s : EngineState) (q : Question) (k : ℕ) (m : Movie)
    (hnd : (s.candidates.map Movie.id).Nodup) :
    (m ∈ (update_state_with_answer s q "?" k).candidates ↔
       m ∈ s.candidates ∧
         (is_hard_elimination q.key = true ∨ dget s.strikes m.id 0 < k)) ∧
    (m ∈ (update_state_with_answer s q "?" k).candidates →
       dget (update_state_with_answer s q "?" k).scores m.id 0 =
         dget s.scores m.id 0 + unk_contrib q m) ∧
    (m ∈ (update_state_with_answer s q "?" k).candidates →
       dget s.scores m.id 0 ≤ dget (update_state_with_answer s q "?" k).scores m.id 0) ∧
    ((∀ x ∈ s.candidates, dget s.strikes x.id 0 < k) →
       (m ∈ (update_state_with_answer s q "?" k).candidates ↔ m ∈ s.candidates)) := by
  obtain ⟨h1, h2⟩ := update_unk_char s q k m hnd
  refine ⟨h1, h2, ?_, ?_⟩
  · intro hm
    rw [h2 hm]
    have : 0 ≤ unk_contrib q m := by
      unfold unk_contrib
      cases q.predicate m with
      | none => norm_num
      | some b => norm_num
    linarith
  · intro hstr
    rw [h1]
    constructor
    · rintro ⟨hm, _⟩
      exact hm
    · intro hm
      exact ⟨hm, Or.inr (hstr m hm)⟩

/-- Counterexample to C5 as stated: on a soft question, a `'?'` answer removes
film 1 because its strike count already reached `max_strikes` — an Unknown
answer is not removal-free on every state. -/
theorem claim_C5_counterexample :
    cxA ∈ cx_state.candidates ∧
    cxA ∉ (update_state_with_answer cx_state cxq_soft "?" 3).candidates := by
  refine ⟨by decide, ?_⟩
  intro hmem
  have h := (update_unk_char cx_state cxq_soft 3 cxA (by decide)).1.mp hmem
  rcases h.2 with h3 | h3
  · exact absurd h3 (by decide)
  · exact absurd h3 (by decide)

def w5_question : Question :=
  { key := "genre_action", text := "Action ?",
    predicate := fun m => if m.original_language = some "en" then some true else none }

/-- Witness for C5: with no strikes pending, `'?'` keeps both films, adds
`+0.2` to the Unknown film and leaves the True film's score unchanged. -/
theorem claim_C5_unknown_answer_witness :
    wqA ∈ (update_state_with_answer wq_state w5_question "?" 3).candidates ∧
    wqB ∈ (update_state_with_answer wq_state w5_question "?" 3).candidates ∧
    dget (update_state_with_answer wq_state w5_question "?" 3).scores wqA.id 0 = 0 ∧
    dget (update_state_with_answer wq_state w5_question "?" 3).scores wqB.id 0 = 1/5 := by
  have hA := claim_C5_unknown_answer wq_state w5_question 3 wqA (by decide)
  have hB := claim_C5_unknown_answer wq_state w5_question 3 wqB (by decide)
  have hAmem : wqA ∈ (update_state_with_answer wq_state w5_question "?" 3).candidates := by
    rw [hA.1]
    decide
  have hBmem : wqB ∈ (update_state_with_answer wq_state w5_question "?" 3).candidates := by
    rw [hB.1]
    decide
  refine ⟨hAmem, hBmem, ?_, ?_⟩
  · rw [hA.2.1 hAmem]
    have h0 : dget wq_state.scores wqA.id 0 = 0 := rfl
    have hc : unk_contrib w5_question wqA = 0 := rfl
    rw [h0, hc]
    norm_num
  · rw [hB.2.1 hBmem]
    have h0 : dget wq_state.scores wqB.id 0 = 0 := rfl
    have hc : unk_contrib w5_question wqB = 1/5 := rfl
    rw [h0, hc]
    norm_num

/-! ## Question typing and diversity control (lines 339-413) -/

/-- `get_question_type(q)`: category tag of a question, derived from its key. -/
def get_question_type (q : Question) : String :=
  if str_startswith q.key "validate_" then "validation"
  else if str_startswith q.key "language_" then "language"
  else if str_startswith_any q.key ["actor_", "dyn_actor_"] then "actor"
  else if str_startswith_any q.key ["director_", "dyn_director_"] then "director"
  else if str_startswith q.key "genre_" then "genre"
  else if str_startswith_any q.key ["franchise_", "char_"] then "franchise"
  else if str_startswith_any q.key ["year_", "decade_", "after_", "before_"] then "date"
  else if str_startswith q.key "dyn_keyword_" then "keyword"
  else if str_startswith q.key "runtime_" then "runtime"
  else if str_startswith q.key "joker_title_" then "title"
  else if str_startswith_any q.key ["big_budget", "small_budget", "box_office", "is_indie"]
    then "finance"
  else if str_startswith_any q.key ["popular", "very_popular"] then "popularity"
  else if str_startswith_any q.key
    ["is_saga", "is_standalone", "is_adaptation", "based_on_", "superhero"] then "meta"
  else if str_startswith_any q.key ["is_american", "is_french", "is_european", "is_asian"]
    then "origin"
  else if str_startswith_any q.key ["is_animation", "is_live_action", "is_short", "is_feature"]
    then "format"
  else if str_startswith q.key "theme_" then "theme"
  else "other"

/-- Python `l[-n:]` for the windows used by the diversity logic (`n ≥ 1`). -/
def lastN (l : List String) (n : ℕ) : List String := l.drop (l.length - n)

/-- `count_recent_type(state, q_type, window)`. -/
def count_recent_type (s : EngineState) (t : String) (window : ℕ) : ℕ :=
  if s.recent_question_types = [] then 0
  else (lastN s.recent_question_types window).count t

/-- `should_diversify(state, q, max_consecutive)` (the selector calls it with
`max_consecutive = 3`). -/
def should_diversify (s : EngineState) (q : Question) (max_consecutive : ℕ) : Bool :=
  let t := get_question_type q
  if t = "language" ∨ t = "validation" then false
  else if max_consecutive ≤ count_recent_type s t max_consecutive then true
  else if 5 ≤ s.recent_question_types.length then
    let last_5 := lastN s.recent_question_types 5
    if last_5.dedup.length < 3 ∧ 2 ≤ last_5.count t then true else false
  else false

/-! ## CLI main loop pieces (lines 2576-2745) -/

/-- `eliminate_movie(state, mid)` (lines 2410-2414). -/
def eliminate_movie (s : EngineState) (mid : ℤ) : EngineState :=
  { s with candidates := s.candidates.filter (fun m => m.id ≠ mid),
           scores := s.scores.filter (fun p => p.1 ≠ mid),
           strikes := s.strikes.filter (fun p => p.1 ≠ mid) }

/-- The `all_languages` set hard-coded in the CLI loop (lines 2697-2698): it
lists only eight of the ten static language question keys. -/
def all_languages_cli : List String :=
  ["language_en", "language_fr", "language_ja", "language_es",
   "language_de", "language_it", "language_ko", "language_zh"]

/-- Keys of the ten static language questions built by `default_questions`
(lines 1158-1167). -/
def static_language_keys : List String :=
  ["language_en", "language_fr", "language_ja", "language_es", "language_de",
   "language_it", "language_ko", "language_zh", "language_pt", "language_ru"]

/-- The language exclusivity step of the CLI loop (lines 2695-2703): after a
Yes to a `language_` question, every member of `all_languages_cli` other than
the confirmed key is added to Asked. -/
def cli_apply_language_exclusion (asked : Finset String) (qkey ans : String) :
    Finset String :=
  if ans = "y" ∧ str_startswith qkey "language_" then
    all_languages_cli.foldl (fun a lang => if lang ≠ qkey then insert lang a else a) asked
  else asked

/-- The top-streak update at the end of a question turn (lines 2721-2729).
The `none` branch of the `head?` match is where the Python
`state.candidates[0]` read raises an uncaught IndexError. -/
def cli_streak_update (t : EngineState) : EngineState :=
  match t.candidates.head? with
  | none => t
  | some top =>
      if t.top_streak_mid = some top.id then
        { t with top_streak_len := t.top_streak_len + 1 }
      else { t with top_streak_mid := some top.id, top_streak_len := 1 }

/-- One CLI question turn (lines 2684-2729): record the key and the category
tag, apply language exclusivity, bump the question counter, reset the
consecutive-guess counter, decrement the cooldown, apply the answer, and
update the top streak. -/
def cli_question_turn (s : EngineState) (q : Question) (ans : String)
    (max_strikes : ℕ) : EngineState :=
  let s1 := { s with asked := insert q.key s.asked }
  let rec_types := s1.recent_question_types ++ [get_question_type q]
  let s2 := { s1 with recent_question_types :=
      if 10 < rec_types.length then lastN rec_types 10 else rec_types }
  let s3 := { s2 with asked := cli_apply_language_exclusion s2.asked q.key ans }
  let s4 := { s3 with question_count := s3.question_count + 1,
                      consecutive_guesses := 0,
                      guess_cooldown := s3.guess_cooldown - 1 }
  cli_streak_update (update_state_with_answer s4 q ans max_strikes)

/-- The `state.candidates[0]` read performed unconditionally at line 2721
right after `update_state_with_answer`; `none` is the uncaught IndexError. -/
def cli_post_answer_top (s : EngineState) (q : Question) (ans : String)
    (k : ℕ) : Option Movie :=
  (update_state_with_answer s q ans k).candidates.get? 0

/-- The rejected-guess branch of the CLI loop (lines 2602-2611): eliminate the
proposed top film, re-sort, set the cooldown to the configured value (default
2), reset the streak and count the failed guess. -/
def cli_reject_guess (s : EngineState) (cooldown : ℕ) : EngineState :=
  match s.candidates.head? with
  | none => s
  | some top =>
    let s1 := sort_state (eliminate_movie s top.id)
    { s1 with guess_cooldown := cooldown,
              top_streak_mid := (s1.candidates.head?).map Movie.id,
              top_streak_len := 0,
              consecutive_guesses := s1.consecutive_guesses + 1 }

/-- The guard under which the CLI loop proposes a guess at the top of a turn
(line 2580): the convergence rule fires and the cooldown has expired. -/
def cli_guess_guard (s : EngineState) : Bool :=
  should_enter_guess_mode s && decide (s.guess_cooldown = 0)

/-- The guard of the secondary, streak-based guess inside a question turn
(line 2731). -/
def cli_streak_guess_guard (s : EngineState) : Bool :=
  decide (9 ≤ s.top_streak_len) && decide (s.guess_cooldown = 0)

/-! ## HTTP surface (`app_akinator.py`) -/

/-- Python truthiness of `session.get("proposed_film_id")` (line 308):
`None` and `0` are falsy. -/
def truthy_id : Option ℤ → Bool
  | some r => decide (r ≠ 0)
  | none => false

/-- The rejected-guess branch of the `/confirm` endpoint (lines 305-314):
with a recorded (truthy) proposed id the film is filtered out and its
score/strike entries popped; otherwise the head of the pool is dropped with
no purge.  Note that no field other than the pool and the dicts is touched:
in particular `guess_cooldown` is never set. -/
def http_confirm_reject (s : EngineState) (proposed : Option ℤ) : EngineState :=
  if s.candidates = [] then s
  else if truthy_id proposed then
    let rid := proposed.getD 0
    sort_state { s with candidates := s.candidates.filter (fun m => m.id ≠ rid),
                        scores := s.scores.filter (fun p => p.1 ≠ rid),
                        strikes := s.strikes.filter (fun p => p.1 ≠ rid) }
  else sort_state { s with candidates := s.candidates.drop 1 }

/-- `_next_step` (lines 222-279) proposes a film, asking for confirmation,
whenever the pool is non-empty and `should_enter_guess_mode` holds — with no
cooldown consultation of any kind. -/
def http_next_is_guess (s : EngineState) : Bool :=
  decide (s.candidates ≠ []) && should_enter_guess_mode s

theorem strike_elim_mem_sub (k : ℕ) (s1 : EngineState) (m : Movie)
    (hm : m ∈ (strike_elimination_step k s1).candidates) : m ∈ s1.candidates := by
  simp only [strike_elimination_step] at hm
  split_ifs at hm with h
  · exact hm
  · exact (List.mem_filter.mp hm).1

/-- Claim C10: inside a CLI question turn, `state.candidates[0]` is read
right after `update_state_with_answer` with no emptiness guard; whenever the
answer eliminates every remaining candidate (a definite answer contradicted
by the whole pool), the read has no value — the uncaught IndexError — instead
of reaching the turn-start emptiness check. -/
theorem claim_C10_unguarded_top_read (s : EngineState) (q : Question) (k : ℕ)
    (ans : String)
    (h : (ans = "y" ∧ ∀ m ∈ s.candidates, q.predicate m = some false) ∨
         (ans = "n" ∧ ∀ m ∈ s.candidates, q.predicate m = some true)) :
    cli_post_answer_top s q ans k = none := by
  have hempty : (update_state_with_answer s q ans k).candidates = [] := by
    rw [List.eq_nil_iff_forall_not_mem]
    intro m hm
    rcases h with ⟨rfl, hall⟩ | ⟨rfl, hall⟩
    · rw [update_y_eq, sort_state_candidates_mem] at hm
      have hp : m ∈ (post_yes_state s q).candidates := by
        split_ifs at hm with hh
        · exact hm
        · exact strike_elim_mem_sub _ _ _ hm
      obtain ⟨h1, h2⟩ := (post_yes_mem s q m).mp hp
      exact h2 (hall m h1)
    · rw [update_n_eq, sort_state_candidates_mem] at hm
      have hp : m ∈ (post_no_state s q).candidates := by
        split_ifs at hm with hh
        · exact hm
        · exact strike_elim_mem_sub _ _ _ hm
      obtain ⟨h1, h2⟩ := (post_no_mem s q m).mp hp
      exact h2 (hall m h1)
  unfold cli_post_answer_top
  rw [hempty]
  rfl

def c10_question : Question :=
  { key := "genre_horror", text := "Horreur ?", predicate := fun _ => some false }

/-- Witness for C10: a Yes to a question every candidate fails empties the
pool and the unguarded top read yields nothing. -/
theorem claim_C10_unguarded_top_read_witness :
    cli_post_answer_top wq_state c10_question "y" 3 = none :=
  claim_C10_unguarded_top_read wq_state c10_question 3 "y" (Or.inl ⟨rfl, by decide⟩)

/-- Claim C4 (code bug): `default_questions` defines ten static `language_`
keys, but the CLI loop's sibling-exclusion set contains only eight of them —
after a Yes to `language_en` the keys `language_pt` and `language_ru` are
*not* added to Asked, although the other siblings are. -/
theorem claim_C4_language_exclusion_gap :
    "language_pt" ∈ static_language_keys ∧ "language_ru" ∈ static_language_keys ∧
    ("language_fr" ∈
        cli_apply_language_exclusion (insert "language_en" (∅ : Finset String))
          "language_en" "y" ∧
      "language_zh" ∈
        cli_apply_language_exclusion (insert "language_en" (∅ : Finset String))
          "language_en" "y" ∧
      "language_pt" ∉
        cli_apply_language_exclusion (insert "language_en" (∅ : Finset String))
          "language_en" "y" ∧
      "language_ru" ∉
        cli_apply_language_exclusion (insert "language_en" (∅ : Finset String))
          "language_en" "y") := by decide

/-! ## Claim C8: Scores/Strikes keys stay inside the candidate pool -/

/-- The §8 invariant: every key of Scores and of Strikes is the id of a film
still in Candidates. -/
def scores_strikes_subset_inv (s : EngineState) : Prop :=
  (∀ j ∈ dkeys s.scores, j ∈ s.candidates.map Movie.id) ∧
  (∀ j ∈ dkeys s.strikes, j ∈ s.candidates.map Movie.id)

instance (s : EngineState) : Decidable (scores_strikes_subset_inv s) := by
  unfold scores_strikes_subset_inv; infer_instance

theorem sort_state_ids_mem (t : EngineState) (j : ℤ) :
    j ∈ (sort_state t).candidates.map Movie.id ↔ j ∈ t.candidates.map Movie.id := by
  rw [mem_ids_iff, mem_ids_iff]
  constructor
  · rintro ⟨m, hm, rfl⟩
    exact ⟨m, (sort_state_candidates_mem t m).mp hm, rfl⟩
  · rintro ⟨m, hm, rfl⟩
    exact ⟨m, (sort_state_candidates_mem t m).mpr hm, rfl⟩

theorem sort_state_inv (t : EngineState) (h : scores_strikes_subset_inv t) :
    scores_strikes_subset_inv (sort_state t) := by
  constructor
  · intro j hj
    rw [sort_state_ids_mem]
    exact h.1 j hj
  · intro j hj
    rw [sort_state_ids_mem]
    exact h.2 j hj

theorem update_inv (s : EngineState) (q : Question) (ans : String) (k : ℕ)
    (h : scores_strikes_subset_inv s) :
    scores_strikes_subset_inv (update_state_with_answer s q ans k) := by
  have hstep : ∀ t : EngineState, scores_strikes_subset_inv t →
      scores_strikes_subset_inv (if is_hard_elimination q.key then t
        else strike_elimination_step k t) := by
    intro t ht
    split_ifs with hh
    · exact ht
    · exact ⟨(strike_elim_keys_sub k t ht.1 ht.2).1, (strike_elim_keys_sub k t ht.1 ht.2).2⟩
  by_cases hy : ans = "y"
  · subst hy
    rw [update_y_eq]
    exact sort_state_inv _ (hstep _ ⟨(post_yes_keys_sub s q).1, (post_yes_keys_sub s q).2⟩)
  by_cases hn : ans = "n"
  · subst hn
    rw [update_n_eq]
    exact sort_state_inv _ (hstep _ ⟨(post_no_keys_sub s q).1, (post_no_keys_sub s q).2⟩)
  by_cases hpy : ans = "py"
  · subst hpy
    rw [update_py_eq]
    refine sort_state_inv _ (hstep _ ⟨?_, ?_⟩)
    · intro j hj
      rcases (dkeys_pass_py_subset q (is_hard_elimination q.key)
          s.candidates s.scores s.strikes).1 j hj with hj' | hj'
      · exact h.1 j hj'
      · exact hj'
    · intro j hj
      rcases (dkeys_pass_py_subset q (is_hard_elimination q.key)
          s.candidates s.scores s.strikes).2 j hj with hj' | hj'
      · exact h.2 j hj'
      · exact hj'
  by_cases hpn : ans = "pn"
  · subst hpn
    rw [update_pn_eq]
    refine sort_state_inv _ (hstep _ ⟨?_, ?_⟩)
    · intro j hj
      rcases (dkeys_pass_pn_subset q (is_hard_elimination q.key)
          s.candidates s.scores s.strikes).1 j hj with hj' | hj'
      · exact h.1 j hj'
      · exact hj'
    · intro j hj
      rcases (dkeys_pass_pn_subset q (is_hard_elimination q.key)
          s.candidates s.scores s.strikes).2 j hj with hj' | hj'
      · exact h.2 j hj'
      · exact hj'
  by_cases hunk : ans = "?"
  · subst hunk
    rw [update_unk_eq]
    refine sort_state_inv _ (hstep _ ⟨?_, ?_⟩)
    · intro j hj
      rcases dkeys_pass_unk_subset q s.candidates s.scores j hj with hj' | hj'
      · exact h.1 j hj'
      · exact hj'
    · intro j hj
      exact h.2 j hj
  · rw [update_other_eq s q k ans hy hn hpy hpn hunk]
    exact sort_state_inv _ (hstep _ h)

theorem eliminate_movie_inv (s : EngineState) (mid : ℤ)
    (h : scores_strikes_subset_inv s) :
    scores_strikes_subset_inv (eliminate_movie s mid) := by
  constructor
  · intro j hj
    obtain ⟨hj1, hj2⟩ := mem_dkeys_filter s.scores (fun i => decide (i ≠ mid)) j hj
    obtain ⟨m, hm, rfl⟩ := (mem_ids_iff _ _).mp (h.1 j hj1)
    exact List.mem_map.mpr ⟨m, List.mem_filter.mpr ⟨hm, hj2⟩, rfl⟩
  · intro j hj
    obtain ⟨hj1, hj2⟩ := mem_dkeys_filter s.strikes (fun i => decide (i ≠ mid)) j hj
    obtain ⟨m, hm, rfl⟩ := (mem_ids_iff _ _).mp (h.2 j hj1)
    exact List.mem_map.mpr ⟨m, List.mem_filter.mpr ⟨hm, hj2⟩, rfl⟩

theorem cli_reject_guess_inv (s : EngineState) (cooldown : ℕ)
    (h : scores_strikes_subset_inv s) :
    scores_strikes_subset_inv (cli_reject_guess s cooldown) := by
  unfold cli_reject_guess
  cases hd : s.candidates.head? with
  | none => exact h
  | some top =>
    have h1 := sort_state_inv _ (eliminate_movie_inv s top.id h)
    exact ⟨h1.1, h1.2⟩

theorem http_confirm_reject_inv (s : EngineState) (proposed : Option ℤ)
    (h : scores_strikes_subset_inv s) (ht : truthy_id proposed = true) :
    scores_strikes_subset_inv (http_confirm_reject s proposed) := by
  unfold http_confirm_reject
  split_ifs with h0
  · exact h
  · apply sort_state_inv
    constructor
    · intro j hj
      obtain ⟨hj1, hj2⟩ := mem_dkeys_filter s.scores
        (fun i => decide (i ≠ proposed.getD 0)) j hj
      obtain ⟨m, hm, rfl⟩ := (mem_ids_iff _ _).mp (h.1 j hj1)
      exact List.mem_map.mpr ⟨m, List.mem_filter.mpr ⟨hm, hj2⟩, rfl⟩
    · intro j hj
      obtain ⟨hj1, hj2⟩ := mem_dkeys_filter s.strikes
        (fun i => decide (i ≠ proposed.getD 0)) j hj
      obtain ⟨m, hm, rfl⟩ := (mem_ids_iff _ _).mp (h.2 j hj1)
      exact List.mem_map.mpr ⟨m, List.mem_filter.mpr ⟨hm, hj2⟩, rfl⟩

/-- Claim C8 (amended): the ids keyed by Scores and Strikes stay a subset of
the candidate ids across every answer application, across `eliminate_movie`
and the CLI guess rejection, and across the HTTP confirm rejection whenever a
(truthy) proposed film id was recorded — the purge happens in the same step.
The HTTP fallback path (no recorded proposed id), which drops the head of the
pool without purging, is the exception shown in the counterexample. -/
theorem claim_C8_purge_invariant (s : EngineState) (q : Question) (ans : String)
    (k : ℕ) (mid : ℤ) (cooldown : ℕ) (proposed : Option ℤ) :
    (scores_strikes_subset_inv s →
        scores_strikes_subset_inv (update_state_with_answer s q ans k)) ∧
    (scores_strikes_subset_inv s →
        scores_strikes_subset_inv (eliminate_movie s mid)) ∧
    (scores_strikes_subset_inv s →
        scores_strikes_subset_inv (cli_reject_guess s cooldown)) ∧
    (scores_strikes_subset_inv s → truthy_id proposed = true →
        scores_strikes_subset_inv (http_confirm_reject s proposed)) :=
  ⟨update_inv s q ans k, eliminate_movie_inv s mid, cli_reject_guess_inv s cooldown,
    fun h ht => http_confirm_reject_inv s proposed h ht⟩

def c8A : Movie := ⟨1, "A", none, 5, none⟩
def c8B : Movie := ⟨2, "B", none, 3, none⟩

def c8_state : EngineState :=
  { candidates := [c8A, c8B], asked := ∅, scores := [(1, 4), (2, 2)],
    strikes := [(1, 1)], question_count := 5, guess_cooldown := 0,
    top_streak_mid := some 1, top_streak_len := 2, consecutive_guesses := 0,
    recent_question_types := [] }

/-- Counterexample to C8 as stated: the HTTP confirm rejection with no
recorded proposed film id drops the head of the pool but purges nothing, so
film 1's Scores entry outlives its membership in Candidates. -/
theorem claim_C8_counterexample :
    scores_strikes_subset_inv c8_state ∧
    ¬ scores_strikes_subset_inv (http_confirm_reject c8_state none) := by
  refine ⟨by decide, ?_⟩
  intro hinv
  have he : http_confirm_reject c8_state none =
      sort_state { c8_state with candidates := c8_state.candidates.drop 1 } := rfl
  rw [he] at hinv
  have h1 : (1 : ℤ) ∈ dkeys (sort_state
      { c8_state with candidates := c8_state.candidates.drop 1 }).scores := by decide
  have h2 := hinv.1 1 h1
  rw [sort_state_ids_mem] at h2
  exact absurd h2 (by decide)

/-- Witness for C8: the invariant survives a concrete Yes answer, a concrete
elimination, a concrete CLI rejection and a concrete HTTP rejection with a
recorded id. -/
theorem claim_C8_purge_invariant_witness :
    scores_strikes_subset_inv (update_state_with_answer c8_state cxq_soft "y" 3) ∧
    scores_strikes_subset_inv (eliminate_movie c8_state 1) ∧
    scores_strikes_subset_inv (cli_reject_guess c8_state 2) ∧
    scores_strikes_subset_inv (http_confirm_reject c8_state (some 1)) :=
  ⟨(claim_C8_purge_invariant c8_state cxq_soft "y" 3 1 2 (some 1)).1 (by decide),
   (claim_C8_purge_invariant c8_state cxq_soft "y" 3 1 2 (some 1)).2.1 (by decide),
   (claim_C8_purge_invariant c8_state cxq_soft "y" 3 1 2 (some 1)).2.2.1 (by decide),
   (claim_C8_purge_invariant c8_state cxq_soft "y" 3 1 2 (some 1)).2.2.2 (by decide)
     (by decide)⟩

/-! ## Claim C3: cooldown after a rejected guess -/

theorem strike_elim_guess_cooldown (k : ℕ) (t : EngineState) :
    (strike_elimination_step k t).guess_cooldown = t.guess_cooldown := by
  simp only [strike_elimination_step]
  split_ifs <;> rfl

theorem update_guess_cooldown (s : EngineState) (q : Question) (ans : String) (k : ℕ) :
    (update_state_with_answer s q ans k).guess_cooldown = s.guess_cooldown := by
  have hstep : ∀ t : EngineState,
      (sort_state (if is_hard_elimination q.key then t
        else strike_elimination_step k t)).guess_cooldown = t.guess_cooldown := by
    intro t
    show (if is_hard_elimination q.key then t
      else strike_elimination_step k t).guess_cooldown = t.guess_cooldown
    split_ifs with hh
    · rfl
    · exact strike_elim_guess_cooldown k t
  by_cases hy : ans = "y"
  · subst hy
    rw [update_y_eq]
    exact hstep _
  by_cases hn : ans = "n"
  · subst hn
    rw [update_n_eq]
    exact hstep _
  by_cases hpy : ans = "py"
  · subst hpy
    rw [update_py_eq]
    exact hstep _
  by_cases hpn : ans = "pn"
  · subst hpn
    rw [update_pn_eq]
    exact hstep _
  by_cases hunk : ans = "?"
  · subst hunk
    rw [update_unk_eq]
    exact hstep _
  · rw [update_other_eq s q k ans hy hn hpy hpn hunk]
    exact hstep _

theorem cli_streak_update_guess_cooldown (t : EngineState) :
    (cli_streak_update t).guess_cooldown = t.guess_cooldown := by
  unfold cli_streak_update
  split
  · rfl
  · split_ifs <;> rfl

theorem cli_question_turn_guess_cooldown (s : EngineState) (q : Question)
    (ans : String) (k : ℕ) :
    (cli_question_turn s q ans k).guess_cooldown = s.guess_cooldown - 1 := by
  simp only [cli_question_turn]
  rw [cli_streak_update_guess_cooldown, update_guess_cooldown]

theorem http_confirm_reject_guess_cooldown (s : EngineState) (proposed : Option ℤ) :
    (http_confirm_reject s proposed).guess_cooldown = s.guess_cooldown := by
  unfold http_confirm_reject
  split_ifs <;> rfl

/-- Claim C3 (amended): in the CLI loop a rejected guess eliminates the
proposed film (purging its score and strikes), sets the cooldown to the
configured value (default 2), and with that default the very next turn can be
neither a turn-start guess (`cli_guess_guard`) nor an in-turn streak guess
after the following question (`cli_streak_guess_guard`) — one question is
forced.  The HTTP confirm endpoint, by contrast, eliminates the film but
leaves `guess_cooldown` untouched, so nothing suppresses an immediate
re-guess there (see the counterexample). -/
theorem claim_C3_reject_guess_cooldown (s : EngineState) (q : Question)
    (ans : String) (k : ℕ) (top : Movie) (proposed : Option ℤ)
    (htop : s.candidates.head? = some top) :
    (cli_reject_guess s 2).guess_cooldown = 2 ∧
    (top.id ∉ (cli_reject_guess s 2).candidates.map Movie.id ∧
      top.id ∉ dkeys (cli_reject_guess s 2).scores ∧
      top.id ∉ dkeys (cli_reject_guess s 2).strikes) ∧
    cli_guess_guard (cli_reject_guess s 2) = false ∧
    cli_streak_guess_guard (cli_question_turn (cli_reject_guess s 2) q ans k) = false ∧
    (http_confirm_reject s proposed).guess_cooldown = s.guess_cooldown := by
  have hr : cli_reject_guess s 2 =
      (let s1 := sort_state (eliminate_movie s top.id)
       { s1 with guess_cooldown := 2,
                 top_streak_mid := (s1.candidates.head?).map Movie.id,
                 top_streak_len := 0,
                 consecutive_guesses := s1.consecutive_guesses + 1 }) := by
    unfold cli_reject_guess
    rw [htop]
  have hcool : (cli_reject_guess s 2).guess_cooldown = 2 := by
    rw [hr]
  refine ⟨hcool, ⟨?_, ?_, ?_⟩, ?_, ?_, http_confirm_reject_guess_cooldown s proposed⟩
  · rw [hr]
    show top.id ∉ (sort_state (eliminate_movie s top.id)).candidates.map Movie.id
    rw [sort_state_ids_mem]
    intro hc
    obtain ⟨m, hm, he⟩ := (mem_ids_iff _ _).mp hc
    simp only [eliminate_movie] at hm
    rw [List.mem_filter, decide_eq_true_iff] at hm
    exact hm.2 he
  · rw [hr]
    show top.id ∉ dkeys (sort_state (eliminate_movie s top.id)).scores
    intro hc
    obtain ⟨h1, h2⟩ := mem_dkeys_filter s.scores (fun i => decide (i ≠ top.id)) top.id hc
    rw [decide_eq_true_iff] at h2
    exact h2 rfl
  · rw [hr]
    show top.id ∉ dkeys (sort_state (eliminate_movie s top.id)).strikes
    intro hc
    obtain ⟨h1, h2⟩ := mem_dkeys_filter s.strikes (fun i => decide (i ≠ top.id)) top.id hc
    rw [decide_eq_true_iff] at h2
    exact h2 rfl
  · unfold cli_guess_guard
    rw [hcool]
    simp
  · unfold cli_streak_guess_guard
    rw [cli_question_turn_guess_cooldown, hcool]
    simp

theorem sort_state_of_sorted (t : EngineState)
    (h : List.Pairwise (fun a b => cand_le t.scores a b = true) t.candidates) :
    (sort_state t).candidates = t.candidates :=
  List.mergeSort_of_sorted h

def c3A : Movie := ⟨1, "A", none, 5, none⟩
def c3B : Movie := ⟨2, "B", none, 4, none⟩
def c3C : Movie := ⟨3, "C", none, 3, none⟩

/-- A session state at the moment the HTTP surface proposes film 1 as a guess:
5 questions asked, film 1 at 20 points, film 2 at 10, film 3 at 1. -/
def c3_state : EngineState :=
  { candidates := [c3A, c3B, c3C], asked := ∅, scores := [(1, 20), (2, 10), (3, 1)],
    strikes := [], question_count := 5, guess_cooldown := 0,
    top_streak_mid := some 1, top_streak_len := 3, consecutive_guesses := 0,
    recent_question_types := [] }

/-- The state reached after the HTTP confirm endpoint rejects film 1 on
`c3_state`, before the re-sort. -/
def c3_after : EngineState :=
  { candidates := [c3B, c3C], asked := ∅, scores := [(2, 10), (3, 1)], strikes := [],
    question_count := 5, guess_cooldown := 0, top_streak_mid := some 1,
    top_streak_len := 3, consecutive_guesses := 0, recent_question_types := [] }

/-- Counterexample to C3 as stated: after the HTTP confirm endpoint rejects
the proposed film 1, `guess_cooldown` is still `0` (never set to 2), and the
very next `_next_step` immediately proposes another guess because the
convergence rule (film 2 at 10 doubling film 3 at 1 after 5 questions) is
consulted with no cooldown suppression. -/
theorem claim_C3_counterexample :
    (http_confirm_reject c3_state (some 1)).guess_cooldown = 0 ∧
    http_next_is_guess (http_confirm_reject c3_state (some 1)) = true := by
  have hcand : (http_confirm_reject c3_state (some 1)).candidates = [c3B, c3C] := by
    show (sort_state c3_after).candidates = [c3B, c3C]
    exact sort_state_of_sorted _ (by decide)
  have h0 : nth_score (http_confirm_reject c3_state (some 1)) 0 = 10 := by
    unfold nth_score score_of
    rw [hcand]
    rfl
  have h1 : nth_score (http_confirm_reject c3_state (some 1)) 1 = 1 := by
    unfold nth_score score_of
    rw [hcand]
    rfl
  have hne : (http_confirm_reject c3_state (some 1)).candidates ≠ [] := by
    rw [hcand]
    decide
  have hq : (http_confirm_reject c3_state (some 1)).question_count = 5 := rfl
  have hguess : should_enter_guess_mode (http_confirm_reject c3_state (some 1)) = true := by
    rw [guess_rule_iff_spec _ hne]
    refine Or.inr (Or.inl ⟨by rw [hq], by rw [hcand]; decide, Or.inl ⟨?_, ?_⟩⟩)
    · rw [h1]
      norm_num
    · rw [h0, h1]
      norm_num
  refine ⟨rfl, ?_⟩
  unfold http_next_is_guess
  rw [hguess]
  simp [hne]

/-- Witness for C3: rejecting the top film of a concrete pool through the CLI
path sets the cooldown to 2, disables the turn-start guess guard, and purges
the film's score entry. -/
theorem claim_C3_reject_guess_cooldown_witness :
    (cli_reject_guess c8_state 2).guess_cooldown = 2 ∧
    cli_guess_guard (cli_reject_guess c8_state 2) = false ∧
    c8A.id ∉ dkeys (cli_reject_guess c8_state 2).scores := by
  have h := claim_C3_reject_guess_cooldown c8_state cxq_soft "y" 3 c8A none (by decide)
  exact ⟨h.1, h.2.2.1, h.2.1.2.1⟩

/-! ## Claim C9: diversity penalty -/

/-- The multiplicative factor the selector applies to a positive question
score (line 470-471: `s *= 0.1` when `state` is provided and
`should_diversify(state, q, max_consecutive=3)` holds, nothing otherwise). -/
noncomputable def diversity_factor (st : Option EngineState) (q : Question) : ℝ :=
  match st with
  | some s => if should_diversify s q 3 then 1/10 else 1
  | none => 1

/-- The penalty condition as amended: the tag fills all of the last three
recorded types, or at least five types are recorded, the last five hold fewer
than three distinct tags and the tag appears at least twice among them;
`language` and `validation` are exempt. -/
def diversify_spec (s : EngineState) (q : Question) : Prop :=
  ¬(get_question_type q = "language" ∨ get_question_type q = "validation") ∧
  ((3 ≤ s.recent_question_types.length ∧
      lastN s.recent_question_types 3 =
        [get_question_type q, get_question_type q, get_question_type q]) ∨
   (5 ≤ s.recent_question_types.length ∧
      (lastN s.recent_question_types 5).dedup.length < 3 ∧
      2 ≤ (lastN s.recent_question_types 5).count (get_question_type q)))

instance (s : EngineState) (q : Question) : Decidable (diversify_spec s q) := by
  unfold diversify_spec; infer_instance

/-- The penalty condition as claim C9 states it: the tag was used in both of
the last two questions, or the five-window condition holds. -/
def diversify_claim_cond (s : EngineState) (q : Question) : Prop :=
  ¬(get_question_type q = "language" ∨ get_question_type q = "validation") ∧
  (lastN s.recent_question_types 2 = [get_question_type q, get_question_type q] ∨
   (5 ≤ s.recent_question_types.length ∧
      (lastN s.recent_question_types 5).dedup.length < 3 ∧
      2 ≤ (lastN s.recent_question_types 5).count (get_question_type q)))

instance (s : EngineState) (q : Question) : Decidable (diversify_claim_cond s q) := by
  unfold diversify_claim_cond; infer_instance

theorem count_recent3_iff (s : EngineState) (t : String) :
    3 ≤ count_recent_type s t 3 ↔
      3 ≤ s.recent_question_types.length ∧
        lastN s.recent_question_types 3 = [t, t, t] := by
  unfold count_recent_type
  split_ifs with hemp
  · constructor
    · intro hc
      exact absurd hc (by omega)
    · rintro ⟨hl, -⟩
      rw [hemp] at hl
      exact absurd hl (by simp)
  · have hlen : (lastN s.recent_question_types 3).length =
        min 3 s.recent_question_types.length := by
      unfold lastN
      rw [List.length_drop]
      omega
    constructor
    · intro hc
      have hcl := List.count_le_length t (lastN s.recent_question_types 3)
      have hL3 : (lastN s.recent_question_types 3).length = 3 := by omega
      have hall : ∀ b ∈ lastN s.recent_question_types 3, t = b :=
        List.count_eq_length.mp (by omega)
      have hrep : lastN s.recent_question_types 3 = List.replicate 3 t := by
        rw [List.eq_replicate_iff]
        exact ⟨hL3, fun b hb => (hall b hb).symm⟩
      constructor
      · omega
      · rw [hrep]
        rfl
    · rintro ⟨hl, heq⟩
      rw [heq]
      simp [List.count_cons]

theorem should_diversify_iff (s : EngineState) (q : Question) :
    should_diversify s q 3 = true ↔ diversify_spec s q := by
  unfold should_diversify diversify_spec
  by_cases hex : get_question_type q = "language" ∨ get_question_type q = "validation"
  · rw [if_pos hex]
    simp [hex]
  · rw [if_neg hex]
    by_cases h1 : 3 ≤ count_recent_type s (get_question_type q) 3
    · rw [if_pos h1]
      constructor
      · intro _
        exact ⟨hex, Or.inl ((count_recent3_iff s _).mp h1)⟩
      · intro _
        rfl
    · rw [if_neg h1]
      by_cases h2 : 5 ≤ s.recent_question_types.length
      · rw [if_pos h2]
        by_cases h3 : (lastN s.recent_question_types 5).dedup.length < 3 ∧
            2 ≤ (lastN s.recent_question_types 5).count (get_question_type q)
        · rw [if_pos h3]
          constructor
          · intro _
            exact ⟨hex, Or.inr ⟨h2, h3.1, h3.2⟩⟩
          · intro _
            rfl
        · rw [if_neg h3]
          constructor
          · intro hfalse
            exact absurd hfalse (by simp)
          · rintro ⟨-, hc | hc⟩
            · exact absurd ((count_recent3_iff s _).mpr hc) h1
            · exact absurd ⟨hc.2.1, hc.2.2⟩ h3
      · rw [if_neg h2]
        constructor
        · intro hfalse
          exact absurd hfalse (by simp)
        · rintro ⟨-, hc | hc⟩
          · exact absurd ((count_recent3_iff s _).mpr hc) h1
          · exact absurd hc.1 h2

/-- Claim C9 (amended): the selector multiplies a positive score by 0.1
exactly when `should_diversify` holds, i.e. when the question's tag fills all
of the last *three* recorded types (the selector passes `max_consecutive=3`,
not 2), or when at least five types are recorded, the last five hold fewer
than three distinct tags and the tag appears at least twice among them;
`language` and `validation` tags are never penalised. -/
theorem claim_C9_diversity_rule (s : EngineState) (q : Question) :
    (should_diversify s q 3 = true ↔ diversify_spec s q) ∧
    (diversify_spec s q → diversity_factor (some s) q = 1/10) ∧
    (¬ diversify_spec s q → diversity_factor (some s) q = 1) ∧
    ((get_question_type q = "language" ∨ get_question_type q = "validation") →
      diversity_factor (some s) q = 1) := by
  refine ⟨should_diversify_iff s q, ?_, ?_, ?_⟩
  · intro h
    have hb : should_diversify s q 3 = true := (should_diversify_iff s q).mpr h
    simp [diversity_factor, hb]
  · intro h
    have hb : should_diversify s q 3 = false := by
      by_contra hc
      rw [Bool.not_eq_false] at hc
      exact h ((should_diversify_iff s q).mp hc)
    simp [diversity_factor, hb]
  · intro h
    have hb : should_diversify s q 3 = false := by
      unfold should_diversify
      rw [if_pos h]
    simp [diversity_factor, hb]

def c9_question : Question :=
  { key := "genre_action", text := "Action ?", predicate := fun _ => some true }

/-- Two recorded `genre` questions in a row — exactly the situation claim C9
says must trigger the 0.1 penalty. -/
def c9_state : EngineState :=
  { candidates := [c3A, c3B], asked := ∅, scores := [(1, 0), (2, 0)], strikes := [],
    question_count := 2, guess_cooldown := 0, top_streak_mid := none,
    top_streak_len := 0, consecutive_guesses := 0,
    recent_question_types := ["genre", "genre"] }

/-- Counterexample to C9 as stated: the tag `genre` was used in both of the
last two questions, yet `should_diversify` (called with `max_consecutive=3`)
does not fire and the score factor stays 1 — the code requires the tag in all
of the last *three* recorded types. -/
theorem claim_C9_counterexample :
    diversify_claim_cond c9_state c9_question ∧
    should_diversify c9_state c9_question 3 = false ∧
    diversity_factor (some c9_state) c9_question = 1 := by
  refine ⟨by decide, by decide, ?_⟩
  have hb : should_diversify c9_state c9_question 3 = false := by decide
  simp [diversity_factor, hb]

/-- Three recorded `genre` questions in a row. -/
def c9w_state : EngineState :=
  { candidates := [c3A, c3B], asked := ∅, scores := [(1, 0), (2, 0)], strikes := [],
    question_count := 3, guess_cooldown := 0, top_streak_mid := none,
    top_streak_len := 0, consecutive_guesses := 0,
    recent_question_types := ["genre", "genre", "genre"] }

/-- Witness for C9: with the tag in all of the last three recorded types the
factor is 0.1. -/
theorem claim_C9_diversity_rule_witness :
    diversity_factor (some c9w_state) c9_question = 1/10 :=
  (claim_C9_diversity_rule c9w_state c9_question).2.1 (by decide)

/-! ## Claim C6: Question.score (lines 243-254 and 277-336) -/

/-- `split_counts(candidates, predicate)` (lines 256-266). -/
def split_counts : List Movie → (Movie → Option Bool) → ℕ × ℕ × ℕ
  | [], _ => (0, 0, 0)
  | m :: rest, p =>
    let r := split_counts rest p
    match p m with
    | some true => (r.1 + 1, r.2.1, r.2.2)
    | some false => (r.1, r.2.1 + 1, r.2.2)
    | none => (r.1, r.2.1, r.2.2 + 1)

/-- One `h(x)` term of `entropy_split`: `-p·log2(p)` with `p = x/n`, and `0`
when `x = 0`. -/
noncomputable def hterm (x n : ℕ) : ℝ :=
  if x = 0 then 0 else -((x : ℝ) / (n : ℝ)) * Real.logb 2 ((x : ℝ) / (n : ℝ))

/-- `entropy_split(yes, no)` (lines 243-254). -/
noncomputable def entropy_split (yes no : ℕ) : ℝ :=
  if yes + no = 0 then 0 else hterm yes (yes + no) + hterm no (yes + no)

/-- The hierarchy of multiplicative category boosts of `Question.score`
(lines 299-334), expressed as the factor applied to the penalised entropy
(the Python mutates `score *= f`, which is the same multiplication). -/
noncomputable def boost_factor (key : String) (n yes : ℕ) : ℝ :=
  if str_startswith key "language_" then 120
  else if str_startswith key "validate_" then
    (if n ≤ 20 then 80 else if n ≤ 50 then 60 else 40)
  else if str_startswith_any key ["director_", "dyn_director_"] then 2
  else if str_startswith key "franchise_" then 9/5
  else if str_startswith key "char_" then 3/2
  else if str_startswith_any key ["actor_", "dyn_actor_"] then
    (if 0 < yes ∧ yes < n then 7/5 else 1)
  else if str_startswith key "dyn_keyword_" then (if n ≤ 30 then 13/10 else 1)
  else if str_startswith_any key ["location_", "event_", "object_"] then 5/4
  else if str_startswith key "joker_title_" ∧ n ≤ 10 then 6/5
  else 1

/-- `Question.score(candidates)` (lines 277-336): sample the first 500 films
when the pool exceeds 500, reject (`-1`) the one-sided splits, otherwise
entropy minus half the unknown ratio, multiplied by the category boost. -/
noncomputable def Question.score (q : Question) (candidates : List Movie) : ℝ :=
  let sample := if 500 < candidates.length then candidates.take 500 else candidates
  let c := split_counts sample q.predicate
  if (c.1 = 0 ∧ c.2.2 = 0) ∨ (c.2.1 = 0 ∧ c.2.2 = 0) then -1
  else
    let base := entropy_split c.1 c.2.1
    let n := sample.length
    let unk_ratio : ℝ := if n ≠ 0 then (c.2.2 : ℝ) / (n : ℝ) else 1
    (base - (1/2) * unk_ratio) * boost_factor q.key n c.1

/-- `h(p) = -p·log2(p)` as the specification writes it. -/
noncomputable def hFun (p : ℝ) : ℝ := -(p * Real.logb 2 p)

/-- The scoring formula as the specification words it, with the unknown
penalty divided by the sample size (the amended claim). -/
noncomputable def spec_score_sampled (q : Question) (candidates : List Movie) : ℝ :=
  let sample := if 500 < candidates.length then candidates.take 500 else candidates
  let c := split_counts sample q.predicate
  if (c.1 = 0 ∧ c.2.2 = 0) ∨ (c.2.1 = 0 ∧ c.2.2 = 0) then -1
  else
    (hFun ((c.1 : ℝ) / ((c.1 : ℝ) + (c.2.1 : ℝ))) +
       hFun ((c.2.1 : ℝ) / ((c.1 : ℝ) + (c.2.1 : ℝ))) -
       (1/2) * ((c.2.2 : ℝ) / (sample.length : ℝ))) * boost_factor q.key sample.length c.1

/-- The scoring formula exactly as claim C6 states it, with the unknown
penalty divided by the full pool size `|C|`. -/
noncomputable def spec_score_fullpool (q : Question) (candidates : List Movie) : ℝ :=
  let sample := if 500 < candidates.length then candidates.take 500 else candidates
  let c := split_counts sample q.predicate
  if (c.1 = 0 ∧ c.2.2 = 0) ∨ (c.2.1 = 0 ∧ c.2.2 = 0) then -1
  else
    (hFun ((c.1 : ℝ) / ((c.1 : ℝ) + (c.2.1 : ℝ))) +
       hFun ((c.2.1 : ℝ) / ((c.1 : ℝ) + (c.2.1 : ℝ))) -
       (1/2) * ((c.2.2 : ℝ) / (candidates.length : ℝ))) *
      boost_factor q.key sample.length c.1

theorem hterm_eq_hFun (x n : ℕ) : hterm x n = hFun ((x : ℝ) / (n : ℝ)) := by
  unfold hterm hFun
  split_ifs with hx
  · subst hx
    norm_num
  · ring

theorem entropy_split_eq_hFun (yes no : ℕ) :
    entropy_split yes no =
      hFun ((yes : ℝ) / ((yes : ℝ) + (no : ℝ))) +
        hFun ((no : ℝ) / ((yes : ℝ) + (no : ℝ))) := by
  unfold entropy_split
  split_ifs with h0
  · have hy : yes = 0 := by omega
    have hn : no = 0 := by omega
    subst hy
    subst hn
    norm_num [hFun]
  · rw [hterm_eq_hFun, hterm_eq_hFun]
    push_cast
    ring_nf

/-- Claim C6 (amended): `Question.score` evaluates the predicate on the first
500 candidates when the pool is larger (on all of it otherwise), returns `-1`
on the one-sided splits, and otherwise returns
`(h(yes/N) + h(no/N) − 0.5·unknown/n)·boost` where `n` is the **sample**
size, not the full pool size. -/
theorem claim_C6_score_formula (q : Question) (candidates : List Movie) :
    Question.score q candidates = spec_score_sampled q candidates := by
  simp only [Question.score, spec_score_sampled]
  set sample := if 500 < candidates.length then candidates.take 500 else candidates with hs
  set c := split_counts sample q.predicate with hc
  by_cases hrej : (c.1 = 0 ∧ c.2.2 = 0) ∨ (c.2.1 = 0 ∧ c.2.2 = 0)
  · rw [if_pos hrej, if_pos hrej]
  · rw [if_neg hrej, if_neg hrej]
    have hn : sample.length ≠ 0 := by
      intro h0
      have hnil : sample = [] := List.length_eq_zero.mp h0
      rw [hnil] at hc
      refine hrej (Or.inl ⟨?_, ?_⟩)
      · rw [hc]
        rfl
      · rw [hc]
        rfl
    rw [if_pos hn, entropy_split_eq_hFun]

def mEn : Movie := ⟨11, "E", none, 1, some "en"⟩
def mFr : Movie := ⟨12, "F", none, 1, some "fr"⟩
def mNone : Movie := ⟨13, "N", none, 1, none⟩

/-- The first 500 films of the 501-film pool: 200 English, 200 French, 100
with no recorded language. -/
def c6_sample : List Movie :=
  List.replicate 200 mEn ++ List.replicate 200 mFr ++ List.replicate 100 mNone

/-- A 501-film pool, large enough that `Question.score` samples it. -/
def c6_pool : List Movie := c6_sample ++ [mFr]

def c6_question : Question :=
  { key := "theme_demo", text := "Demo ?", predicate := pred_language "en" }

set_option maxRecDepth 40000 in
/-- Counterexample to C6 as stated: on a 501-film pool the unknown penalty is
divided by the sample size 500 (`n = len(sample)` at line 294), not by the
full pool size 501 as the claim asserts, so the two formulas disagree. -/
theorem claim_C6_counterexample :
    Question.score c6_question c6_pool ≠ spec_score_fullpool c6_question c6_pool := by
  have hslen : c6_sample.length = 500 := by
    show (List.replicate 200 mEn ++ (List.replicate 200 mFr ++ List.replicate 100 mNone)).length = 500
    rw [List.length_append, List.length_append, List.length_replicate,
      List.length_replicate, List.length_replicate]
  have hplen : c6_pool.length = 501 := by
    show (c6_sample ++ [mFr]).length = 501
    rw [List.length_append, hslen]
    rfl
  have hsample : (if 500 < c6_pool.length then c6_pool.take 500 else c6_pool) = c6_sample := by
    rw [if_pos (by rw [hplen]; norm_num)]
    exact List.take_left' hslen
  have hcounts : split_counts c6_sample c6_question.predicate = (200, 200, 100) := by decide
  have hboost : boost_factor c6_question.key 500 200 = 1 := rfl
  have hL : Question.score c6_question c6_pool =
      (hFun (1/2) + hFun (1/2) - 1/2 * ((100 : ℝ)/500)) *
        boost_factor c6_question.key 500 200 := by
    simp only [Question.score]
    rw [hsample, hcounts, hslen, entropy_split_eq_hFun]
    norm_num
  have hR : spec_score_fullpool c6_question c6_pool =
      (hFun (1/2) + hFun (1/2) - 1/2 * ((100 : ℝ)/501)) *
        boost_factor c6_question.key 500 200 := by
    simp only [spec_score_fullpool]
    rw [hsample, hcounts, hslen, hplen]
    norm_num
  rw [hL, hR, hboost, mul_one, mul_one]
  intro heq
  have h2 : (1 : ℝ)/2 * ((100 : ℝ)/500) = 1/2 * ((100 : ℝ)/501) := by linarith
  norm_num at h2

/-! ## Claim C7: choose_best_question (lines 416-485) -/

/-- The `contradictions` dictionary (lines 423-435): note the after/before
entries are one-directional. -/
def contradictions_list : List (String × String) :=
  [("big_budget", "small_budget"), ("small_budget", "big_budget"),
   ("runtime_lt_90", "runtime_ge_150"), ("runtime_ge_150", "runtime_lt_90"),
   ("is_animation", "is_live_action"), ("is_live_action", "is_animation"),
   ("is_saga", "is_standalone"), ("is_standalone", "is_saga"),
   ("after_1980", "before_1970"), ("after_2000", "before_1990"),
   ("after_2020", "before_2010")]

/-- `contradictions[key]` when present. -/
def contradiction_lookup (k : String) : Option String :=
  (contradictions_list.find? (fun p => p.1 = k)).map Prod.snd

/-- `jokers_used` (line 437). -/
def jokers_used (asked : Finset String) : ℕ :=
  (asked.filter (fun a => str_startswith a "joker_title_" = true)).card

/-- The validity filter of `choose_best_question` (lines 440-452): each
conjunct negates one of the `continue` conditions. -/
def valid_questions (questions : List Question) (asked : Finset String) :
    List Question :=
  questions.filter (fun q =>
    !decide (q.key ∈ asked) &&
    !(decide (q.requires ≠ ∅) && !decide (q.requires ⊆ asked)) &&
    !(decide (q.excludes ≠ ∅) && decide ((q.excludes ∩ asked).Nonempty)) &&
    !(str_startswith q.key "joker_title_" && decide (1 ≤ jokers_used asked)) &&
    !(match contradiction_lookup q.key with
      | some c => decide (c ∈ asked)
      | none => false))

/-- Python `l[:k]` for an `int` bound (negative bounds cut from the end). -/
def pySlice {α : Type} (l : List α) (k : ℤ) : List α :=
  if 0 ≤ k then l.take k.toNat else l.take (l.length - (-k).toNat)

/-- The over-200 sampling step (lines 458-462): keep the `validate_` and
`language_` questions, fill up to 200 with the rest. -/
def sample_questions (vq : List Question) : List Question :=
  if 200 < vq.length then
    let priority := vq.filter (fun q =>
      str_startswith q.key "validate_" || str_startswith q.key "language_")
    let rest := vq.filter (fun q =>
      !(str_startswith q.key "validate_" || str_startswith q.key "language_"))
    priority ++ pySlice rest (200 - (priority.length : ℤ))
  else vq

/-- The scored list (lines 464-473): positive scores only, multiplied by the
diversity factor. -/
noncomputable def scored_list (cands : List Movie) (vq : List Question)
    (st : Option EngineState) : List (Question × ℝ) :=
  vq.filterMap (fun q =>
    if 0 < q.score cands then some (q, q.score cands * diversity_factor st q)
    else none)

/-- `choose_best_question(candidates, questions, asked, is_first_question,
state)` (lines 416-485).  The only randomness in the source —
`random.choice` over the top 3 on the first turn — is modelled by the oracle
argument `rand`, reduced mod 3. -/
noncomputable def choose_best_question (cands : List Movie)
    (questions : List Question) (asked : Finset String)
    (is_first_question : Bool) (rand : ℕ) (st : Option EngineState) :
    Option Question :=
  let vq := valid_questions questions asked
  if vq.isEmpty then none
  else
    let scored := scored_list cands (sample_questions vq) st
    if scored.isEmpty then none
    else
      let sorted := scored.mergeSort (fun a b => decide (b.2 ≤ a.2))
      if is_first_question = true ∧ 3 ≤ sorted.length then
        match (sorted.take 3).get? (rand % 3) with
        | some p => some p.1
        | none => (sorted.head?).map Prod.fst
      else (sorted.head?).map Prod.fst

theorem sample_questions_subset (vq : List Question) :
    ∀ q ∈ sample_questions vq, q ∈ vq := by
  unfold sample_questions
  split_ifs with h
  · intro q hq
    rcases List.mem_append.mp hq with hq | hq
    · exact (List.mem_filter.mp hq).1
    · unfold pySlice at hq
      split_ifs at hq with h2
      · exact (List.mem_filter.mp (List.mem_of_mem_take hq)).1
      · exact (List.mem_filter.mp (List.mem_of_mem_take hq)).1
  · intro q hq
    exact hq

theorem choose_best_question_mem_valid (cands : List Movie)
    (questions : List Question) (asked : Finset String) (first : Bool)
    (rand : ℕ) (st : Option EngineState) (q : Question)
    (h : choose_best_question cands questions asked first rand st = some q) :
    q ∈ valid_questions questions asked := by
  simp only [choose_best_question] at h
  have hson : ∀ p : Question × ℝ,
      p ∈ (scored_list cands (sample_questions (valid_questions questions asked)) st).mergeSort
        (fun a b => decide (b.2 ≤ a.2)) →
      p.1 ∈ valid_questions questions asked := by
    intro p hp
    rw [List.mem_mergeSort] at hp
    unfold scored_list at hp
    rw [List.mem_filterMap] at hp
    obtain ⟨q', hq', he⟩ := hp
    split_ifs at he with hpos
    rw [Option.some_inj] at he
    have hq'p : q' = p.1 := by
      rw [← he]
    rw [← hq'p]
    exact sample_questions_subset _ q' hq'
  split_ifs at h with h1 h2 h3
  · cases hg : (((scored_list cands (sample_questions (valid_questions questions asked))
        st).mergeSort (fun a b => decide (b.2 ≤ a.2))).take 3).get? (rand % 3) with
    | none =>
      rw [hg] at h
      cases hh : ((scored_list cands (sample_questions (valid_questions questions asked))
          st).mergeSort (fun a b => decide (b.2 ≤ a.2))).head? with
      | none =>
        rw [hh] at h
        exact Option.noConfusion h
      | some p =>
        rw [hh] at h
        have hmem := List.mem_of_mem_head? hh
        have hq1 : p.1 = q := Option.some_inj.mp h
        rw [← hq1]
        exact hson p hmem
    | some p =>
      rw [hg] at h
      have hq1 : p.1 = q := Option.some_inj.mp h
      have hmem := List.mem_of_mem_take (List.get?_mem hg)
      rw [← hq1]
      exact hson p hmem
  · cases hh : ((scored_list cands (sample_questions (valid_questions questions asked))
        st).mergeSort (fun a b => decide (b.2 ≤ a.2))).head? with
    | none =>
      rw [hh] at h
      exact Option.noConfusion h
    | some p =>
      rw [hh] at h
      have hmem := List.mem_of_mem_head? hh
      have hq1 : p.1 = q := Option.some_inj.mp h
      rw [← hq1]
      exact hson p hmem

/-- When the question list is the single question `q`, it survives the
validity filter, and its score on the pool is positive, the selector (off the
first turn) returns `q`. -/
theorem choose_single (cands : List Movie) (q : Question) (asked : Finset String)
    (rand : ℕ) (st : Option EngineState)
    (hv : valid_questions [q] asked = [q])
    (hpos : 0 < q.score cands) :
    choose_best_question cands [q] asked false rand st = some q := by
  have hsamp : sample_questions [q] = [q] := by
    simp [sample_questions]
  have hsc : scored_list cands [q] st =
      [(q, q.score cands * diversity_factor st q)] := by
    simp only [scored_list, List.filterMap_cons, List.filterMap_nil, if_pos hpos]
  simp only [choose_best_question, hv, hsamp, hsc, List.mergeSort_singleton]
  simp

/-- The one concrete question used for claim C7: the static `before_1990`
question (engine_akinator.py line 1150). -/
def c7_q : Question :=
  { key := "before_1990", text := "Avant 1990?", predicate := pred_before_year 1990 }

/-- A two-film pool splitting `before_1990` evenly. -/
def c7_cands : List Movie :=
  [⟨21, "A", some "1985-01-01", 1, some "en"⟩,
   ⟨22, "B", some "2005-01-01", 1, some "en"⟩]

theorem c7_score_eq : Question.score c7_q c7_cands = 1 := by
  have hlen : ¬ (500 < c7_cands.length) := by decide
  have hcounts : split_counts c7_cands c7_q.predicate = (1, 1, 0) := by decide
  have hlog : Real.logb 2 ((1 : ℝ) / 2) = -1 := by
    rw [one_div, Real.logb_inv, Real.logb_self_eq_one (by norm_num)]
  have hterm12 : hterm 1 2 = 1/2 := by
    simp only [hterm]
    norm_num [hlog]
  have hboost : boost_factor c7_q.key c7_cands.length 1 = 1 := by
    have h1 : str_startswith c7_q.key "language_" = false := by decide
    have h2 : str_startswith c7_q.key "validate_" = false := by decide
    have h3 : str_startswith_any c7_q.key ["director_", "dyn_director_"] = false := by
      decide
    have h4 : str_startswith c7_q.key "franchise_" = false := by decide
    have h5 : str_startswith c7_q.key "char_" = false := by decide
    have h6 : str_startswith_any c7_q.key ["actor_", "dyn_actor_"] = false := by decide
    have h7 : str_startswith c7_q.key "dyn_keyword_" = false := by decide
    have h8 : str_startswith_any c7_q.key ["location_", "event_", "object_"] = false := by
      decide
    have h9 : str_startswith c7_q.key "joker_title_" = false := by decide
    simp only [boost_factor, h1, h2, h3, h4, h5, h6, h7, h8, h9]
    simp
  simp only [Question.score, if_neg hlen, hcounts]
  rw [if_neg (by norm_num)]
  simp only [entropy_split]
  rw [if_neg (by norm_num), hterm12, hboost]
  norm_num [c7_cands]

/-- The contradiction relation as claim C7 words it: symmetric pairs,
including the after_/before_ pairs. -/
def claim_contradiction_pairs : List (String × String) :=
  [("big_budget", "small_budget"), ("runtime_lt_90", "runtime_ge_150"),
   ("is_animation", "is_live_action"), ("is_saga", "is_standalone"),
   ("after_1980", "before_1970"), ("after_2000", "before_1990"),
   ("after_2020", "before_2010")]

/-- The claimed (symmetric) contradiction partner of a key. -/
def claim_partner (k : String) : Option String :=
  match claim_contradiction_pairs.find? (fun p => p.1 = k || p.2 = k) with
  | some p => some (if p.1 = k then p.2 else p.1)
  | none => none

/-- C7: every question returned by `choose_best_question` is eligible — its
key is unasked, its requires set is contained in Asked, its excludes set is
disjoint from Asked, it is not a joker when a `joker_title_` key has already
been used, and its contradiction partner *in the code's one-directional
`contradictions` dict* (not the claimed symmetric pairing) is unasked. -/
theorem claim_C7_eligibility (cands : List Movie)
    (questions : List Question) (asked : Finset String) (first : Bool)
    (rand : ℕ) (st : Option EngineState) (q : Question)
    (h : choose_best_question cands questions asked first rand st = some q) :
    q.key ∉ asked ∧ q.requires ⊆ asked ∧ q.excludes ∩ asked = ∅ ∧
      (str_startswith q.key "joker_title_" = true → jokers_used asked = 0) ∧
      ∀ c, contradiction_lookup q.key = some c → c ∉ asked := by
  have hmem := choose_best_question_mem_valid cands questions asked first rand st q h
  rw [valid_questions, List.mem_filter] at hmem
  obtain ⟨-, hb⟩ := hmem
  simp only [Bool.and_eq_true, Bool.not_eq_true'] at hb
  obtain ⟨⟨⟨⟨h1, h2⟩, h3⟩, h4⟩, h5⟩ := hb
  refine ⟨of_decide_eq_false h1, ?_, ?_, ?_, ?_⟩
  · by_cases hr : q.requires = ∅
    · rw [hr]; exact Finset.empty_subset _
    · rw [decide_eq_true hr, Bool.true_and, Bool.not_eq_false'] at h2
      exact of_decide_eq_true h2
  · by_cases he : q.excludes = ∅
    · rw [he, Finset.empty_inter]
    · rw [decide_eq_true he, Bool.true_and] at h3
      exact Finset.not_nonempty_iff_eq_empty.mp (of_decide_eq_false h3)
  · intro hj
    rw [hj, Bool.true_and] at h4
    have := of_decide_eq_false h4
    omega
  · intro c hc
    rw [hc] at h5
    exact of_decide_eq_false h5

/-- Claim C7 counterexample: with `after_2000` already asked, the selector
still returns `before_1990`, although the claimed symmetric contradiction
partner of `before_1990` is `after_2000` — the code's dict maps only
`after_2000 → before_1990`, never the reverse. -/
theorem claim_C7_counterexample :
    choose_best_question c7_cands [c7_q] {"after_2000"} false 0 none = some c7_q ∧
    claim_partner c7_q.key = some "after_2000" ∧
    "after_2000" ∈ ({"after_2000"} : Finset String) ∧
    contradiction_lookup c7_q.key = none := by
  refine ⟨choose_single c7_cands c7_q {"after_2000"} 0 none rfl ?_, rfl, by decide, rfl⟩
  rw [c7_score_eq]
  norm_num

/-- Witness for C7 at the concrete instance. -/
theorem claim_C7_eligibility_witness :
    c7_q.key ∉ (∅ : Finset String) ∧ c7_q.requires ⊆ (∅ : Finset String) ∧
      c7_q.excludes ∩ (∅ : Finset String) = ∅ ∧
      (str_startswith c7_q.key "joker_title_" = true → jokers_used ∅ = 0) ∧
      ∀ c, contradiction_lookup c7_q.key = some c → c ∉ (∅ : Finset String) :=
  claim_C7_eligibility c7_cands [c7_q] ∅ false 0 none c7_q
    (choose_single c7_cands c7_q ∅ 0 none rfl
      (by rw [c7_score_eq]; norm_num))
